import Mathlib

/-!
# psf-extractor: the cabinet extraction wrapper (`src/extractor.cc`)

A shallow embedding of the callbacks the wrapper hands to the platform's
cabinet library (FDI) and of `extract` itself.

Conventions of the embedding.

* Characters (`char`, `WCHAR`) are natural numbers; a pointer to a string is
  the list of units stored from the pointer on, and the string it denotes is
  the part before the first NUL (`cstr`).
* The operating system and the cabinet library are not part of the source.
  Their answers are fields of `Win32` and `Cabinet`; the calls the source
  makes are recorded, in order, as `Call`s (inside callbacks) and `Step`s (in
  `extract`).
* Heap blocks have a size, and a store outside a block is a `Fault`, as is a
  read beyond the end of an argument string. An allocation can fail only
  where the source tests its result.
* Integer widths are those of 64-bit Windows: `size_t` has 64 bits, `int`
  and `ULONG` have 32.
-/

namespace PsfExtractor

/-! ## Constants of the platform headers -/

/-- The source's `#define MAX_PATH_W 32767`. -/
def MAX_PATH_W : Nat := 32767

/-- The code unit of a backslash. -/
def BACKSLASH : Nat := 92

def CP_ACP : Nat := 0
def CP_UTF8 : Nat := 65001
def _A_NAME_IS_UTF : Nat := 0x80
def INVALID_HANDLE_VALUE : Int := -1
def TRUE : Int := 1
def GENERIC_READ : Nat := 0x80000000
def GENERIC_WRITE : Nat := 0x40000000
def FILE_SHARE_READ : Nat := 1
def FILE_SHARE_WRITE : Nat := 2
def CREATE_ALWAYS : Nat := 2
def OPEN_EXISTING : Nat := 3

/-! ## Data -/

structure FILETIME where
  dwLowDateTime : Nat
  dwHighDateTime : Nat
  deriving DecidableEq, Repr

/-- The fields of `FDINOTIFICATION` the callbacks read. -/
structure FDINOTIFICATION where
  psz1 : List Nat
  hf : Int
  date : Nat
  time : Nat
  attribs : Nat
  deriving DecidableEq, Repr

/-- The values of `fdint`; `other` stands for any value the `switch` sends to
`default`. -/
inductive FDINOTIFICATIONTYPE where
  | fdintCABINET_INFO
  | fdintPARTIAL_FILE
  | fdintCOPY_FILE
  | fdintCLOSE_FILE_INFO
  | fdintNEXT_CABINET
  | fdintENUMERATE
  | other (code : Nat)
  deriving DecidableEq, Repr

/-- The fields of `FDICABINETINFO` that `extract` reads. -/
structure FDICABINETINFO where
  hasprev : Bool
  hasnext : Bool
  deriving DecidableEq, Repr

/-- A file-system call made by a callback, with the arguments it is given.
String arguments are recorded as the string the pointer denotes. -/
inductive Call where
  | CreateDirectoryW (lpPathName : List Nat)
  | CreateFileW (lpFileName : List Nat) (dwDesiredAccess dwShareMode dwCreationDisposition : Nat)
  | WriteFile (hFile : Int) (lpBuffer : List Nat)
  | SetFileTime (hFile : Int) (lpCreationTime lpLastAccessTime lpLastWriteTime : Option FILETIME)
  | CloseHandle (hObject : Int)
  deriving DecidableEq, Repr

/-- The answers of the operating system to the calls of the callbacks. -/
structure Win32 where
  /-- The wide string `MultiByteToWideChar(cp, 0, str, -1, ..)` produces. -/
  MultiByteToWideChar : Nat → List Nat → List Nat
  /-- The handle `CreateFileW` returns (`INVALID_HANDLE_VALUE` on failure). -/
  CreateFileW : List Nat → Nat → Nat → Nat → Int
  /-- The number of bytes `WriteFile` reports written; `none` when it fails. -/
  WriteFile : Int → List Nat → Option Nat
  /-- The file time `DosDateTimeToFileTime` stores; `none` when it fails. -/
  DosDateTimeToFileTime : Nat → Nat → Option FILETIME
  /-- Whether `CloseHandle` succeeds. -/
  CloseHandle : Int → Bool

/-! ## Strings in memory -/

/-- The string a pointer denotes: the units before the first NUL. -/
def cstr (mem : List Nat) : List Nat := mem.takeWhile (fun c => c != 0)

/-- The functions `lstrlenW` / `strlen`: the length of the string. -/
def lstrlenW (mem : List Nat) : Nat := (cstr mem).length

/-- The function `lstrcpyW(dst, src)`: the destination afterwards. -/
def lstrcpyW (src : List Nat) : List Nat := cstr src ++ [0]

/-- Scanning loop of `wcschr`: `i` is the offset of the head of the list. -/
def wcschr.scan (c : Nat) : List Nat → Nat → Option Nat
  | [], _ => none
  | x :: xs, i => if x = c then some i else if x = 0 then none else wcschr.scan c xs (i + 1)

/-- The function `wcschr(mem + start, c)`, as an offset into `mem`; `none` is `NULL`. -/
def wcschr (mem : List Nat) (start : Nat) (c : Nat) : Option Nat :=
  wcschr.scan c (mem.drop start) start

/-- The function `wcscpy_s(dst, size, src)`: the destination afterwards. When the string
does not fit, the destination is left empty; the handler sizes its buffer so
that this does not happen (`cstr_wcscat_wcscpy`). -/
def wcscpy_s (size : Nat) (src : List Nat) : List Nat :=
  if lstrlenW src < size then cstr src ++ [0] else [0]

/-- The function `wcscat_s(dst, size, src)`: the destination afterwards. When the result
does not fit, the destination is left empty. -/
def wcscat_s (dst : List Nat) (size : Nat) (src : List Nat) : List Nat :=
  if lstrlenW dst + lstrlenW src < size then cstr dst ++ cstr src ++ [0] else [0]

/-- The function `strdupAtoW(cp, str)` for a non-null `str`: the converted string, NUL
terminated, in a fresh buffer. -/
def strdupAtoW (os : Win32) (cp : Nat) (str : List Nat) : List Nat :=
  os.MultiByteToWideChar cp (cstr str) ++ [0]

/-! ## The callbacks -/

/-- The `while (p != NULL)` loop of `CreateDirectoryRecursive`. Every round
moves `p` forward, so `fuel` bounds the rounds by the length of the buffer. -/
def CreateDirectoryRecursive.loop : Nat → List Nat → Option Nat → List Call
  | 0, _, _ => []
  | _ + 1, _, none => []
  | fuel + 1, path, some p =>
    let path1 := path.set p 0
    let call := Call.CreateDirectoryW (cstr path1)
    let path2 := path1.set p BACKSLASH
    call :: CreateDirectoryRecursive.loop fuel path2 (wcschr path2 (p + 1) BACKSLASH)

/-- The function `CreateDirectoryRecursive(name)`: the directory creations it requests. -/
def CreateDirectoryRecursive (name : List Nat) : List Call :=
  let path := lstrcpyW name
  CreateDirectoryRecursive.loop path.length path (wcschr path 0 BACKSLASH)

/-- The value of `return -1` in a function that returns `UINT`. -/
def UINT_MINUS_ONE : Nat := 4294967295

/-- The function `FDIWrite(hf, pv, cb)`, with `pv` the `cb` bytes of the buffer. Its
result is a `UINT`: the count `WriteFile` stored in the `DWORD written`, or
-1 converted to `UINT`. -/
def FDIWrite (os : Win32) (hf : Int) (pv : List Nat) : Nat × List Call :=
  match os.WriteFile hf pv with
  | none => (UINT_MINUS_ONE, [Call.WriteFile hf pv])
  | some written => (written % 2 ^ 32, [Call.WriteFile hf pv])

/-- The function `FDIClose(hf)`. -/
def FDIClose (os : Win32) (hf : Int) : Int × List Call :=
  if os.CloseHandle hf then (0, [Call.CloseHandle hf]) else (-1, [Call.CloseHandle hf])

/-- The pointer `file` after `while (*file == '\\') file++`. -/
def skipBackslashes (nameW : List Nat) : List Nat :=
  nameW.dropWhile (fun c => c == BACKSLASH)

/-- The function `FDINotify(fdint, pfdin)`, reading the global `TargetDirectoryName`:
the value returned and the calls made. -/
def FDINotify (os : Win32) (TargetDirectoryName : List Nat)
    (fdint : FDINOTIFICATIONTYPE) (pfdin : FDINOTIFICATION) : Int × List Call :=
  match fdint with
  | .fdintCABINET_INFO => (0, [])
  | .fdintCOPY_FILE =>
    let nameW := strdupAtoW os
      (if pfdin.attribs &&& _A_NAME_IS_UTF ≠ 0 then CP_UTF8 else CP_ACP) pfdin.psz1
    let file := skipBackslashes nameW
    let TargetDirectoryNameW := strdupAtoW os CP_ACP TargetDirectoryName
    let size := lstrlenW TargetDirectoryNameW + lstrlenW file + 1
    let TargetFilePath := wcscat_s (wcscpy_s size TargetDirectoryNameW) size file
    let hf := os.CreateFileW (cstr TargetFilePath) GENERIC_WRITE
      (FILE_SHARE_READ ||| FILE_SHARE_WRITE) CREATE_ALWAYS
    (hf, CreateDirectoryRecursive TargetFilePath ++
      [Call.CreateFileW (cstr TargetFilePath) GENERIC_WRITE
        (FILE_SHARE_READ ||| FILE_SHARE_WRITE) CREATE_ALWAYS])
  | .fdintCLOSE_FILE_INFO =>
    let FileTime : FILETIME :=
      match os.DosDateTimeToFileTime pfdin.date pfdin.time with
      | some ft => ft
      | none => { dwLowDateTime := 0, dwHighDateTime := 0 }
    (TRUE, Call.SetFileTime pfdin.hf none none (some FileTime) :: (FDIClose os pfdin.hf).2)
  | .fdintPARTIAL_FILE => (-1, [])
  | .fdintENUMERATE => (0, [])
  | .fdintNEXT_CABINET => (-1, [])
  | .other _ => (0, [])

/-! ## `extract`: building the three strings -/

/-- Ways in which a run leaves the defined behaviour of the C program. -/
inductive Fault where
  | readPastEnd
  | writeBeforeStart
  | writePastEnd
  | invalidParameter
  deriving DecidableEq, Repr

/-- Conversion of a `size_t` to `int` (`int n = s.size()`). -/
def toInt (n : Nat) : Int := Int.bmod (n : Int) (2 ^ 32)

/-- Addition of `int`s, wrapping at 32 bits. -/
def addInt (a b : Int) : Int := Int.bmod (a + b) (2 ^ 32)

/-- Conversion of an `int` to `size_t`. -/
def toSizeT (i : Int) : Nat := (i % 2 ^ 64).toNat

/-- Conversion to `ULONG`, the parameter type of `FDIAlloc`. -/
def toULONG (i : Int) : Nat := (i % 2 ^ 32).toNat

/-- A heap block: its size and the cells written so far, from offset 0
(`none` is a cell inside the written range that was never stored to). -/
structure Buffer where
  size : Nat
  cells : List (Option Nat)
  deriving DecidableEq, Repr

/-- The function `FDIAlloc(cb)` when the allocation succeeds: `cb` uninitialised bytes. -/
def FDIAlloc (cb : Nat) : Buffer := { size := cb, cells := [] }

/-- The bytes `strncpy(dst, src, n)` stores at `dst`, where `src` is an array
of exactly `src.length` bytes: the bytes of `src` up to a NUL, then NULs, `n`
bytes in all. Reading beyond the array is a fault. -/
def strncpy : List Nat → Nat → Except Fault (List Nat)
  | _, 0 => .ok []
  | [], _ + 1 => .error .readPastEnd
  | c :: cs, n + 1 =>
    if c = 0 then .ok (List.replicate (n + 1) 0)
    else match strncpy cs n with
      | .ok rest => .ok (c :: rest)
      | .error f => .error f

/-- Storing `bytes` at `buf + off`. -/
def Buffer.store (buf : Buffer) (off : Int) (bytes : List Nat) : Except Fault Buffer :=
  if bytes = [] then .ok buf
  else if off < 0 then .error .writeBeforeStart
  else if buf.size < off.toNat + bytes.length then .error .writePastEnd
  else .ok { buf with
    cells := (buf.cells ++ List.replicate (off.toNat - buf.cells.length) none).take off.toNat
      ++ bytes.map some ++ buf.cells.drop (off.toNat + bytes.length) }

/-- The initialised bytes at the start of a block: what a reader of the
pointer finds. -/
def Buffer.mem (buf : Buffer) : List Nat :=
  (buf.cells.takeWhile Option.isSome).filterMap id

/-- The string literal `"\\\0"`: a backslash and two NULs. -/
def backslashLiteral : List Nat := [BACKSLASH, 0, 0]

/-- Lines 155 and 159-161: `CABFilePart`. -/
def build_CABFilePart (file_name : List Nat) : Except Fault Buffer :=
  let fileNameLength := toInt file_name.length
  let CABFilePart := FDIAlloc (toULONG (addInt fileNameLength 1))
  match strncpy file_name (toSizeT fileNameLength) with
  | .error f => .error f
  | .ok copied =>
    match CABFilePart.store 0 copied with
    | .error f => .error f
    | .ok CABFilePart => CABFilePart.store fileNameLength [0]

/-- Lines 156 and 163-165: `CABPathPart`. -/
def build_CABPathPart (file_dir : List Nat) : Except Fault Buffer :=
  let fileDirLength := toInt file_dir.length
  let CABPathPart := FDIAlloc (toULONG (addInt fileDirLength 2))
  match strncpy file_dir (toSizeT fileDirLength) with
  | .error f => .error f
  | .ok copied =>
    match CABPathPart.store 0 copied with
    | .error f => .error f
    | .ok CABPathPart =>
      match strncpy backslashLiteral 2 with
      | .error f => .error f
      | .ok tail => CABPathPart.store fileDirLength tail

/-- Lines 157 and 167-170, after the allocation succeeded:
`TargetDirectoryName`. -/
def build_TargetDirectoryName (out_path : List Nat) : Except Fault Buffer :=
  let outPathLength := toInt out_path.length
  let TargetDirectoryName := FDIAlloc MAX_PATH_W
  match strncpy out_path (toSizeT outPathLength) with
  | .error f => .error f
  | .ok copied =>
    match TargetDirectoryName.store 0 copied with
    | .error f => .error f
    | .ok TargetDirectoryName =>
      match strncpy backslashLiteral 2 with
      | .error f => .error f
      | .ok tail => TargetDirectoryName.store outPathLength tail

/-- The function `strcpy_s(dst, size, src)`: the destination afterwards; `none` when the
string does not fit and the invalid-parameter handler is invoked. -/
def strcpy_s (size : Nat) (src : List Nat) : Option (List Nat) :=
  if lstrlenW src < size then some (cstr src ++ [0]) else none

/-- The function `strcat_s(dst, size, src)`: the destination afterwards; `none` when the
result does not fit and the invalid-parameter handler is invoked. -/
def strcat_s (dst : List Nat) (size : Nat) (src : List Nat) : Option (List Nat) :=
  if lstrlenW dst + lstrlenW src < size then some (cstr dst ++ cstr src ++ [0]) else none

/-! ## `extract` -/

/-- The notification callback, as `FDICopy` receives it. -/
abbrev PFNFDINOTIFY := FDINOTIFICATIONTYPE → FDINOTIFICATION → Int × List Call

/-- The write callback, as `FDICreate` receives it. -/
abbrev PFNWRITE := Int → List Nat → Nat × List Call

/-- The answers of the heap and of the cabinet library to `extract`.
Allocations whose result the source does not test are taken to succeed. -/
structure Cabinet where
  /-- Whether `HeapAlloc` of that many bytes returns a block. -/
  HeapAlloc : Nat → Bool
  /-- Whether `FDICreate` returns a context. -/
  FDICreate : Bool
  /-- The cabinet information `FDIIsCabinet` stores for a handle; `none` when
  it returns `FALSE`. -/
  FDIIsCabinet : Int → Option FDICABINETINFO
  /-- For `FDICopy(hfdi, cabinet, path, 0, notify, ..)` on a context created
  with the write callback: its result and the calls its callbacks made. -/
  FDICopy : List Nat → List Nat → PFNFDINOTIFY → PFNWRITE → Bool × List Call

/-- A call of `extract` whose result decides how it goes on, with that
result, and the two release calls on the success path. -/
inductive Step where
  | HeapAlloc (cb : Nat) (ok : Bool)
  | FDICreate (ok : Bool)
  | CreateFileW (lpFileName : List Nat) (dwDesiredAccess dwShareMode dwCreationDisposition : Nat)
      (handle : Int)
  | FDIIsCabinet (hf : Int) (pfdici : Option FDICABINETINFO)
  | CloseHandle (hObject : Int)
  | FDICopy (pszCabinet pszCabPath : List Nat) (callbacks : List Call) (ok : Bool)
  | FDIDestroy
  deriving DecidableEq, Repr

/-- How a run of `extract` ends: it returns a value, or it leaves the defined
behaviour of the program. -/
inductive Outcome where
  | returned (value : Bool)
  | fault (f : Fault)
  deriving DecidableEq, Repr

/-- How a run of `extract` ends and what it did. -/
structure Run where
  result : Outcome
  steps : List Step
  deriving DecidableEq, Repr

/-- The function `extract(file_name, file_dir, out_path)`. -/
def extract (os : Win32) (fdi : Cabinet) (file_name file_dir out_path : List Nat) : Run :=
  match build_CABFilePart file_name with
  | .error f => ⟨.fault f, []⟩
  | .ok CABFilePart =>
  match build_CABPathPart file_dir with
  | .error f => ⟨.fault f, []⟩
  | .ok CABPathPart =>
  let s1 := [Step.HeapAlloc MAX_PATH_W (fdi.HeapAlloc MAX_PATH_W)]
  if fdi.HeapAlloc MAX_PATH_W = false then ⟨.returned false, s1⟩ else
  match build_TargetDirectoryName out_path with
  | .error f => ⟨.fault f, s1⟩
  | .ok TargetDirectoryName =>
  let s2 := s1 ++ [Step.FDICreate fdi.FDICreate]
  if fdi.FDICreate = false then ⟨.returned false, s2⟩ else
  match strcpy_s MAX_PATH_W CABPathPart.mem with
  | none => ⟨.fault .invalidParameter, s2⟩
  | some CABFileFullName =>
  match strcat_s CABFileFullName MAX_PATH_W CABFilePart.mem with
  | none => ⟨.fault .invalidParameter, s2⟩
  | some CABFileFullName =>
  let CABFileFullNameW := strdupAtoW os CP_ACP CABFileFullName
  let hf := os.CreateFileW (cstr CABFileFullNameW) GENERIC_READ FILE_SHARE_READ OPEN_EXISTING
  let s3 := s2 ++ [Step.CreateFileW (cstr CABFileFullNameW) GENERIC_READ FILE_SHARE_READ
    OPEN_EXISTING hf]
  if hf = INVALID_HANDLE_VALUE then ⟨.returned false, s3⟩ else
  let s4 := s3 ++ [Step.FDIIsCabinet hf (fdi.FDIIsCabinet hf)]
  match fdi.FDIIsCabinet hf with
  | none => ⟨.returned false, s4⟩
  | some CabinetInfo =>
  if CabinetInfo.hasprev || CabinetInfo.hasnext then ⟨.returned false, s4⟩ else
  let copy := fdi.FDICopy (cstr CABFilePart.mem) (cstr CABPathPart.mem)
    (FDINotify os TargetDirectoryName.mem) (FDIWrite os)
  let s5 := s4 ++ [Step.CloseHandle hf,
    Step.FDICopy (cstr CABFilePart.mem) (cstr CABPathPart.mem) copy.2 copy.1]
  if copy.1 = false then ⟨.returned false, s5⟩ else
  ⟨.returned true, s5 ++ [Step.FDIDestroy]⟩

/-! ## The copy step of the cabinet library

`FDICopy` is not part of the source. Its routing of decompressed bytes to the
callbacks is modelled from sections 3, 4.4, 4.5 and 7 of the specification.
Header parsing, checksums and decompression are not modelled: a folder comes
with the decoded output of its blocks. -/

/-- A `CFFILE` entry of the file table. -/
structure CFFILE where
  cbFile : Nat
  uoffFolderStart : Nat
  iFolder : Nat
  date : Nat
  time : Nat
  attribs : Nat
  szName : List Nat
  deriving DecidableEq, Repr

/-- A folder: its files and the decoded output of its data blocks, in order. -/
structure Folder where
  files : List CFFILE
  blocks : List (List Nat)
  deriving DecidableEq, Repr

/-- The life of a file sink. -/
inductive Sink where
  | notOpened
  | opened (hf : Int)
  | closed
  deriving DecidableEq, Repr

/-- A file of the folder being routed, its sink, and the calls made for it so
far, in call order. -/
structure Routed where
  entry : CFFILE
  sink : Sink
  calls : List Call
  deriving DecidableEq, Repr

/-- The result of a part of the copy: the state reached, the calls the
callbacks made in that part, in order, and whether the copy goes on (`false`:
it is aborted). -/
structure Routing (σ : Type) where
  state : σ
  made : List Call
  ok : Bool
  deriving DecidableEq, Repr

/-- The substring `s[a : b]`. -/
def slice (s : List Nat) (a b : Nat) : List Nat := (s.drop a).take (b - a)

/-- The notification the copy step passes for a file. -/
def notificationOf (f : CFFILE) (hf : Int) : FDINOTIFICATION :=
  { psz1 := f.szName, hf := hf, date := f.date, time := f.time, attribs := f.attribs }

/-- Modelled from the spec: `FDICopy` is missing from the source; this is the
router of section 4.4 for a file whose sink `hf` is open, on the chunk
`[u, u + len)`: it is written the overlapping slice through the write callback
(FileSink `write`: a short write is a sink error and aborts) and is closed,
with its timestamp, once its trailing byte has been written (the
`fdintCLOSE_FILE_INFO` notification). `made` are the calls already made for the
file on this chunk. -/
def routeOpen (notify : PFNFDINOTIFY) (write : PFNWRITE) (u : Nat) (chunk : List Nat)
    (r : Routed) (hf : Int) (made : List Call) : Routing Routed :=
  let a := r.entry.uoffFolderStart
  let b := a + r.entry.cbFile
  let piece := slice chunk (a - u) (b - u)
  let wrote := write hf piece
  let written := if piece = [] then [] else wrote.2
  if piece ≠ [] ∧ wrote.1 ≠ piece.length then
    ⟨{ r with sink := .opened hf, calls := r.calls ++ (made ++ written) }, made ++ written, false⟩
  else if b ≤ u + chunk.length then
    let closing := (notify .fdintCLOSE_FILE_INFO (notificationOf r.entry hf)).2
    ⟨{ r with sink := .closed, calls := r.calls ++ (made ++ written ++ closing) },
      made ++ written ++ closing, true⟩
  else
    ⟨{ r with sink := .opened hf, calls := r.calls ++ (made ++ written) }, made ++ written, true⟩

/-- Modelled from the spec: `FDICopy` is missing from the source; this is the
router of section 4.4 for one file and one chunk `[u, u + len)` of the folder
stream. A file whose range meets the chunk has its sink opened on first touch
(the `fdintCOPY_FILE` notification; a sink that cannot be created aborts) and
is then routed as an open file; a file of size 0 whose offset lies in the
chunk is opened and closed without a write. -/
def routeFile (notify : PFNFDINOTIFY) (write : PFNWRITE) (u : Nat) (chunk : List Nat)
    (r : Routed) : Routing Routed :=
  let a := r.entry.uoffFolderStart
  let b := a + r.entry.cbFile
  let touched : Bool :=
    decide (a < u + chunk.length) && (decide (u < b) || (r.entry.cbFile == 0 && decide (u ≤ a)))
  match r.sink with
  | .closed => ⟨r, [], true⟩
  | .notOpened =>
    if touched then
      let copyFile := notify .fdintCOPY_FILE (notificationOf r.entry 0)
      if copyFile.1 = INVALID_HANDLE_VALUE then
        ⟨{ r with calls := r.calls ++ copyFile.2 }, copyFile.2, false⟩
      else routeOpen notify write u chunk r copyFile.1 copyFile.2
    else ⟨r, [], true⟩
  | .opened hf =>
    if touched then routeOpen notify write u chunk r hf []
    else ⟨r, [], true⟩

/-- Modelled from the spec: `FDICopy` is missing from the source; this is the
end of a folder (section 4.5, `assert router has finished all of F's files`)
for one file. A closed sink is finished. A file of size 0 that no chunk
reached still produces its empty sink, created and closed without a write
(section 4.4, item 3). Any other file is unfinished and the copy fails. -/
def finishFile (notify : PFNFDINOTIFY) (r : Routed) : Routing Routed :=
  match r.sink with
  | .closed => ⟨r, [], true⟩
  | .opened _ => ⟨r, [], false⟩
  | .notOpened =>
    if r.entry.cbFile = 0 then
      let copyFile := notify .fdintCOPY_FILE (notificationOf r.entry 0)
      if copyFile.1 = INVALID_HANDLE_VALUE then
        ⟨{ r with calls := r.calls ++ copyFile.2 }, copyFile.2, false⟩
      else
        let closing := (notify .fdintCLOSE_FILE_INFO (notificationOf r.entry copyFile.1)).2
        ⟨{ r with sink := .closed, calls := r.calls ++ (copyFile.2 ++ closing) },
          copyFile.2 ++ closing, true⟩
    else ⟨r, [], false⟩

/-- Modelled from the spec: `FDICopy` is missing from the source; this is the
router advancing through the file list (section 4.4, item 1), stopping at the
first failure (section 7: stop on first error). -/
def routeAll (step : Routed → Routing Routed) : List Routed → Routing (List Routed)
  | [] => ⟨[], [], true⟩
  | r :: rs =>
    let s := step r
    if s.ok = false then ⟨s.state :: rs, s.made, false⟩
    else
      let t := routeAll step rs
      ⟨s.state :: t.state, s.made ++ t.made, t.ok⟩

/-- Modelled from the spec: `FDICopy` is missing from the source; this is its
block loop of section 4.5 for one folder, from cursor `u` on, over the decoded
blocks: a block of uncompressed size 0 is rejected, every other block is
accepted by the router, and after the last block all files must be finished. -/
def routeBlocks (notify : PFNFDINOTIFY) (write : PFNWRITE) :
    Nat → List (List Nat) → List Routed → Routing (List Routed)
  | _, [], rs => routeAll (finishFile notify) rs
  | u, chunk :: chunks, rs =>
    if chunk = [] then ⟨rs, [], false⟩
    else
      let s := routeAll (routeFile notify write u chunk) rs
      if s.ok = false then s
      else
        let t := routeBlocks notify write (u + chunk.length) chunks s.state
        ⟨t.state, s.made ++ t.made, t.ok⟩

/-- Modelled from the spec: `FDICopy` is missing from the source; this is the
copy step over the folders of a cabinet, in header order (section 4.5),
driving the two callbacks; for every folder reached, the sinks of its files. -/
def FDICopyModel (notify : PFNFDINOTIFY) (write : PFNWRITE) :
    List Folder → Routing (List (List Routed))
  | [] => ⟨[], [], true⟩
  | F :: Fs =>
    let s := routeBlocks notify write 0 F.blocks
      (F.files.map fun f => { entry := f, sink := .notOpened, calls := [] })
    if s.ok = false then ⟨[s.state], s.made, false⟩
    else
      let t := FDICopyModel notify write Fs
      ⟨s.state :: t.state, s.made ++ t.made, t.ok⟩

/-- Modelled from the spec: `FDICopy` is missing from the source; these are the
`iFolder` values of section 3 that mark a file as continued from or into
another cabinet: 0xFFFD, 0xFFFE and 0xFFFF. -/
def isContinuation (iFolder : Nat) : Bool :=
  iFolder == 0xFFFD || iFolder == 0xFFFE || iFolder == 0xFFFF

/-- Modelled from the spec: `FDICopy` is missing from the source; this is the
notification it sends for a continuation file: `fdintNEXT_CABINET` for a file
continuing into the next cabinet (0xFFFE), `fdintPARTIAL_FILE` for a file
continued from a previous cabinet (0xFFFD, and 0xFFFF, which is continued
from a previous cabinet and into the next). -/
def continuationNotice (iFolder : Nat) : FDINOTIFICATIONTYPE :=
  if iFolder = 0xFFFE then .fdintNEXT_CABINET else .fdintPARTIAL_FILE

/-- The tables of a cabinet (section 3): the `CFFILE` entries in stored order
and, for every `CFFOLDER` in header order, the decoded output of its blocks. -/
structure Tables where
  files : List CFFILE
  blocks : List (List (List Nat))
  deriving DecidableEq, Repr

/-- Modelled from the spec: `FDICopy` is missing from the source; this is the
step `group files by iFolder (preserving order)` of section 4.5. -/
def groupByFolder (t : Tables) : List Folder :=
  t.blocks.enum.map fun ib =>
    { files := t.files.filter (fun f => f.iFolder == ib.1), blocks := ib.2 }

/-- Modelled from the spec: `FDICopy` is missing from the source; this is the
copy step on the tables of a cabinet. A file whose `iFolder` is a continuation
sentinel (section 7, `UnsupportedMultiVolume`) is reported to the notification
callback before any folder is copied, and the answer -1 aborts the whole
operation. Following a continuation is out of the scope of the specification:
`resume` stands for whatever the library does when the callback does not
abort. Without a continuation file the folders are copied in header order. -/
def FDICopyTables (notify : PFNFDINOTIFY) (write : PFNWRITE)
    (resume : Routing (List (List Routed))) (t : Tables) : Routing (List (List Routed)) :=
  match t.files.find? (fun f => isContinuation f.iFolder) with
  | none => FDICopyModel notify write (groupByFolder t)
  | some f =>
    let answer := notify (continuationNotice f.iFolder) (notificationOf f 0)
    if answer.1 = -1 then ⟨[], answer.2, false⟩ else resume

/-- The answer of `FDICopy` for a copy that went as a `Routing` says. -/
def Routing.answer {σ : Type} (r : Routing σ) : Bool × List Call := (r.ok, r.made)

/-- The buffers passed to `WriteFile` in a list of calls, in call order. -/
def writtenBuffers : List Call → List (List Nat)
  | [] => []
  | Call.WriteFile _ buf :: cs => buf :: writtenBuffers cs
  | _ :: cs => writtenBuffers cs

/-! ## Specification-side definitions -/

/-- The directory creations for the backslashes of `rest`, when `pre` is the
part of the path before `rest`. -/
def dirsOf (pre : List Nat) : List Nat → List Call
  | [] => []
  | c :: cs =>
    if c = BACKSLASH then Call.CreateDirectoryW pre :: dirsOf (pre ++ [c]) cs
    else dirsOf (pre ++ [c]) cs

/-- The wide string the handler obtains for the stored name `psz1`. -/
def decodedName (os : Win32) (pfdin : FDINOTIFICATION) : List Nat :=
  cstr (os.MultiByteToWideChar
    (if pfdin.attribs &&& _A_NAME_IS_UTF ≠ 0 then CP_UTF8 else CP_ACP) (cstr pfdin.psz1))

/-- The wide string the handler obtains for the global `TargetDirectoryName`. -/
def decodedTarget (os : Win32) (TargetDirectoryName : List Nat) : List Nat :=
  cstr (os.MultiByteToWideChar CP_ACP (cstr TargetDirectoryName))

/-- The string in `TargetFilePath` when the handler creates the file. -/
def targetFilePath (os : Win32) (TargetDirectoryName : List Nat) (pfdin : FDINOTIFICATION) :
    List Nat :=
  decodedTarget os TargetDirectoryName ++
    (decodedName os pfdin).dropWhile (fun c => c == BACKSLASH)

/-- The components of a stored name: the parts between backslashes. -/
def pathComponents : List Nat → List (List Nat)
  | [] => [[]]
  | c :: cs =>
    if c = BACKSLASH then [] :: pathComponents cs
    else match pathComponents cs with
      | [] => [[c]]
      | h :: t => (c :: h) :: t

/-- The `fdintCOPY_FILE` branch from line 121 on, for a decoded name `nameW`. -/
def copyFileNamed (os : Win32) (TargetDirectoryName : List Nat) (nameW : List Nat) :
    Int × List Call :=
  let path := decodedTarget os TargetDirectoryName ++ (cstr nameW).dropWhile (fun c => c == BACKSLASH)
  (os.CreateFileW path GENERIC_WRITE (FILE_SHARE_READ ||| FILE_SHARE_WRITE) CREATE_ALWAYS,
    CreateDirectoryRecursive path ++
      [Call.CreateFileW path GENERIC_WRITE (FILE_SHARE_READ ||| FILE_SHARE_WRITE) CREATE_ALWAYS])

/-- The six tests of `extract` that end in `return false`, named. -/
inductive Guard where
  | targetDirectoryAllocated
  | contextCreated
  | cabinetOpened
  | cabinetAccepted
  | singleVolume
  | copied
  deriving DecidableEq, Repr

/-- The tests in the order of the source. -/
def guardOrder : List Guard :=
  [.targetDirectoryAllocated, .contextCreated, .cabinetOpened, .cabinetAccepted,
    .singleVolume, .copied]

/-- What a step tells about the tests made on its result. -/
def Step.verdicts : Step → List (Guard × Bool)
  | .HeapAlloc _ ok => [(.targetDirectoryAllocated, ok)]
  | .FDICreate ok => [(.contextCreated, ok)]
  | .CreateFileW _ _ _ _ handle => [(.cabinetOpened, decide (handle ≠ INVALID_HANDLE_VALUE))]
  | .FDIIsCabinet _ none => [(.cabinetAccepted, false)]
  | .FDIIsCabinet _ (some info) =>
    [(.cabinetAccepted, true), (.singleVolume, !(info.hasprev || info.hasnext))]
  | .CloseHandle _ => []
  | .FDICopy _ _ _ ok => [(.copied, ok)]
  | .FDIDestroy => []

/-- The tests a run made, with their outcomes, in order. -/
def verdicts (steps : List Step) : List (Guard × Bool) :=
  (steps.map Step.verdicts).flatten

/-- Whether a step is a call of `FDICopy`. -/
def Step.isFDICopy : Step → Bool
  | .FDICopy _ _ _ _ => true
  | _ => false

/-- A logged step carries the answer of the heap, the operating system or the
cabinet library to that call; for `FDICopy`, the answer to a call with the
notification callback reading the `TargetDirectoryName` built from `out_path`
and with the write callback. -/
def Step.Answered (os : Win32) (fdi : Cabinet) (out_path : List Nat) : Step → Prop
  | .HeapAlloc cb ok => ok = fdi.HeapAlloc cb
  | .FDICreate ok => ok = fdi.FDICreate
  | .CreateFileW name access share disposition handle =>
    handle = os.CreateFileW name access share disposition
  | .FDIIsCabinet hf info => info = fdi.FDIIsCabinet hf
  | .CloseHandle _ => True
  | .FDICopy cab path callbacks ok =>
    ∃ T, build_TargetDirectoryName out_path = .ok T ∧
      (ok, callbacks) = fdi.FDICopy cab path (FDINotify os T.mem) (FDIWrite os)
  | .FDIDestroy => True

/-- The handle `extract` gets for the cabinet file `name`. -/
def cabinetHandle (os : Win32) (name : List Nat) : Int :=
  os.CreateFileW (cstr (strdupAtoW os CP_ACP name)) GENERIC_READ FILE_SHARE_READ OPEN_EXISTING

/-- The handle the `fdintCOPY_FILE` notification returns for a file: its
output handle. -/
def outputHandle (os : Win32) (TargetDirectoryName : List Nat) (f : CFFILE) : Int :=
  (FDINotify os TargetDirectoryName .fdintCOPY_FILE (notificationOf f 0)).1

/-- Every `WriteFile` in the calls is on the handle `h`. -/
def WritesOn (h : Int) (calls : List Call) : Prop :=
  ∀ c ∈ calls, ∀ h1 buf, c = Call.WriteFile h1 buf → h1 = h

/-- The calls of `r1` are those of `r` followed by calls taken, in order, from
`made`. -/
@[reducible]
def Extends (made : List Call) (r r1 : Routed) : Prop :=
  ∃ m, r1.calls = r.calls ++ m ∧ m.Sublist made

/-- What holds of a routed file when the cursor is at `u`: a closed sink has
its range behind the cursor, an open sink is the output handle, and all
writes so far were on the output handle. -/
@[reducible]
def RoutedAt (os : Win32) (TargetDirectoryName : List Nat) (u : Nat) (r : Routed) : Prop :=
  (r.sink = .closed → r.entry.uoffFolderStart + r.entry.cbFile ≤ u) ∧
  (∀ hf, r.sink = .opened hf → hf = outputHandle os TargetDirectoryName r.entry) ∧
  WritesOn (outputHandle os TargetDirectoryName r.entry) r.calls

/-! ## Example platforms -/

/-- An operating system for examples: conversion keeps the units, every file
opens on handle 7, every write is complete. -/
def demoOS : Win32 where
  MultiByteToWideChar := fun _ s => s
  CreateFileW := fun _ _ _ _ => 7
  WriteFile := fun _ buf => some buf.length
  DosDateTimeToFileTime := fun d t => some { dwLowDateTime := t, dwHighDateTime := d }
  CloseHandle := fun _ => true

/-- A cabinet library for examples: a single-volume cabinet with one file
`a`, stamped and closed after one write. -/
def demoFDI : Cabinet where
  HeapAlloc := fun _ => true
  FDICreate := true
  FDIIsCabinet := fun _ => some { hasprev := false, hasnext := false }
  FDICopy := fun _ _ notify write =>
    let opened := notify .fdintCOPY_FILE
      { psz1 := [97, 0], hf := 0, date := 0, time := 0, attribs := 0 }
    let wrote := write opened.1 [104, 105]
    let closed := notify .fdintCLOSE_FILE_INFO
      { psz1 := [], hf := opened.1, date := 33, time := 44, attribs := 0 }
    (true, opened.2 ++ wrote.2 ++ closed.2)

/-- An operating system for examples: as `demoOS`, but the conversion of a
DOS date whose day field (the low five bits) is 0 fails, as no calendar has
such a day. -/
def calendarOS : Win32 :=
  { demoOS with
    DosDateTimeToFileTime := fun d t =>
      if d % 32 = 0 then none else some { dwLowDateTime := t, dwHighDateTime := d } }

/-- A cabinet library for examples: the cabinet is the second volume of a
set, so its header names a previous cabinet. -/
def secondVolumeFDI : Cabinet where
  HeapAlloc := fun _ => true
  FDICreate := true
  FDIIsCabinet := fun _ => some { hasprev := true, hasnext := false }
  FDICopy := demoFDI.FDICopy

/-- A cabinet for examples: one folder of four files in three blocks; the
second file is empty, and so is the last, which lies at the end of the stream. -/
def demoFolders : List Folder :=
  [{ files := [CFFILE.mk 3 0 0 1 2 0 [97, 0], CFFILE.mk 0 3 0 1 2 0 [101, 0],
      CFFILE.mk 4 3 0 1 2 0 [98, 0], CFFILE.mk 0 7 0 1 2 0 [122, 0]],
     blocks := [[1, 2], [3, 4, 5], [6, 7]] }]

/-- A cabinet library for examples: as `demoFDI`, with the copy step copying
`demoFolders` as modelled. -/
def foldersFDI : Cabinet :=
  { demoFDI with
    FDICopy := fun _ _ notify write => (FDICopyModel notify write demoFolders).answer }

/-- The tables of a cabinet for examples: one folder of one block; the second
file continues into the next cabinet. -/
def continuedTables : Tables :=
  { files := [CFFILE.mk 3 0 0 1 2 0 [97, 0], CFFILE.mk 4 3 0xFFFE 1 2 0 [98, 0]],
    blocks := [[[1, 2, 3]]] }

/-- A cabinet library for examples: as `demoFDI`, with the copy step on
`continuedTables` as modelled; when the callback does not abort on the
continuation file, this library leaves that file out and copies the folders. -/
def continuedFDI : Cabinet :=
  { demoFDI with
    FDICopy := fun _ _ notify write =>
      (FDICopyTables notify write (FDICopyModel notify write (groupByFolder continuedTables))
        continuedTables).answer }

/-! # Theorems -/

/-! ## Strings: basic facts -/

theorem cstr_ne_zero (mem : List Nat) : ∀ c ∈ cstr mem, c ≠ 0 := by
  intro c hc
  have h := List.mem_takeWhile_imp hc
  simpa using h

theorem cstr_append_zero (P rest : List Nat) (hP : ∀ c ∈ P, c ≠ 0) :
    cstr (P ++ 0 :: rest) = P := by
  induction P with
  | nil => simp [cstr]
  | cons c cs ih =>
    have hc : c ≠ 0 := hP c (by simp)
    have ih1 := ih (fun d hd => hP d (by simp [hd]))
    simp only [cstr] at ih1 ⊢
    simp [List.takeWhile_cons, hc, ih1]

theorem cstr_of_ne_zero (P : List Nat) (hP : ∀ c ∈ P, c ≠ 0) : cstr P = P := by
  induction P with
  | nil => simp [cstr]
  | cons c cs ih =>
    have hc : c ≠ 0 := hP c (by simp)
    have ih1 := ih (fun d hd => hP d (by simp [hd]))
    simp only [cstr] at ih1 ⊢
    simp [List.takeWhile_cons, hc, ih1]

theorem cstr_idem (mem : List Nat) : cstr (cstr mem) = cstr mem :=
  cstr_of_ne_zero _ (cstr_ne_zero mem)

theorem cstr_lstrcpyW (name : List Nat) : cstr (lstrcpyW name) = cstr name := by
  unfold lstrcpyW
  exact cstr_append_zero _ [] (cstr_ne_zero name)

/-! ## `CreateDirectoryRecursive` -/

theorem loop_eq_dirsOf (rest : List Nat) :
    ∀ (pre : List Nat) (fuel : Nat), rest.length + 1 ≤ fuel →
      (∀ c ∈ pre, c ≠ 0) → (∀ c ∈ rest, c ≠ 0) →
      CreateDirectoryRecursive.loop fuel (pre ++ (rest ++ [0]))
        (wcschr.scan BACKSLASH (rest ++ [0]) pre.length) = dirsOf pre rest := by
  induction rest with
  | nil =>
    intro pre fuel _ _ _
    cases fuel <;> simp [wcschr.scan, BACKSLASH, CreateDirectoryRecursive.loop, dirsOf]
  | cons c cs ih =>
    intro pre fuel hfuel hpre hrest
    have hc : c ≠ 0 := hrest c (by simp)
    have hcs : ∀ d ∈ cs, d ≠ 0 := fun d hd => hrest d (by simp [hd])
    have hpre1 : ∀ d ∈ pre ++ [c], d ≠ 0 := by
      intro d hd
      rcases List.mem_append.1 hd with h | h
      · exact hpre d h
      · simp at h; simpa [h] using hc
    obtain ⟨fuel, rfl⟩ : ∃ k, fuel = k + 1 := ⟨fuel - 1, by simp at hfuel; omega⟩
    have hfuel1 : cs.length + 1 ≤ fuel := by simp at hfuel; omega
    have key := ih (pre ++ [c]) fuel hfuel1 hpre1 hcs
    have key2 := ih (pre ++ [c]) (fuel + 1) (by omega) hpre1 hcs
    simp only [List.append_assoc, List.singleton_append, List.length_append,
      List.length_singleton] at key key2
    by_cases hb : c = BACKSLASH
    · subst hb
      have hset0 : (pre ++ BACKSLASH :: (cs ++ [0])).set pre.length 0
          = pre ++ 0 :: (cs ++ [0]) := by
        simp [List.set_append_right]
      have hset1 : (pre ++ 0 :: (cs ++ [0])).set pre.length BACKSLASH
          = pre ++ BACKSLASH :: (cs ++ [0]) := by
        simp [List.set_append_right]
      have hdrop : (pre ++ BACKSLASH :: (cs ++ [0])).drop (pre.length + 1) = cs ++ [0] := by
        simp [List.drop_append_eq_append_drop]
      simp only [List.cons_append, wcschr.scan, if_true, CreateDirectoryRecursive.loop, dirsOf,
        hset0, hset1, wcschr, hdrop, cstr_append_zero pre _ hpre, key]
    · simp only [List.cons_append, wcschr.scan, if_neg hb, if_neg hc, dirsOf]
      exact key2

theorem dirsOf_eq (rest : List Nat) : ∀ pre : List Nat,
    dirsOf pre rest =
      ((List.range rest.length).filter (fun i => decide (rest[i]? = some BACKSLASH))).map
        (fun i => Call.CreateDirectoryW (pre ++ rest.take i)) := by
  induction rest with
  | nil => intro pre; simp [dirsOf]
  | cons c cs ih =>
    intro pre
    have h := ih (pre ++ [c])
    rw [dirsOf, h, List.length_cons, List.range_succ_eq_map, List.filter_cons, List.filter_map]
    by_cases hb : c = BACKSLASH
    · subst hb
      simp [Function.comp_def, List.map_map]
    · simp [Function.comp_def, List.map_map, hb]

theorem CreateDirectoryRecursive_eq_dirsOf (name : List Nat) :
    CreateDirectoryRecursive name = dirsOf [] (cstr name) := by
  have h := loop_eq_dirsOf (cstr name) [] ((cstr name).length + 1) (le_refl _) (by simp)
    (cstr_ne_zero name)
  simpa [CreateDirectoryRecursive, lstrcpyW, wcschr] using h

/-! ## The `fdintCOPY_FILE` branch -/

theorem cstr_append_singleton_zero (X : List Nat) : cstr (X ++ [0]) = cstr X := by
  induction X with
  | nil => simp [cstr]
  | cons c cs ih =>
    simp only [cstr] at ih ⊢
    by_cases hc : c = 0
    · simp [List.takeWhile_cons, hc]
    · simp [List.takeWhile_cons, hc, ih]

theorem cstr_skipBackslashes (mem : List Nat) :
    cstr (skipBackslashes mem) = (cstr mem).dropWhile (fun c => c == BACKSLASH) := by
  induction mem with
  | nil => simp [cstr, skipBackslashes]
  | cons c cs ih =>
    simp only [cstr, skipBackslashes] at ih ⊢
    by_cases hb : c = BACKSLASH
    · subst hb
      simp [List.takeWhile_cons, List.dropWhile_cons, BACKSLASH] at ih ⊢
      exact ih
    · by_cases hc : c = 0
      · subst hc
        simp [List.takeWhile_cons, List.dropWhile_cons, BACKSLASH]
      · simp [List.takeWhile_cons, List.dropWhile_cons, hb, hc]

theorem cstr_wcscat_wcscpy (A B : List Nat) :
    cstr (wcscat_s (wcscpy_s (lstrlenW A + lstrlenW B + 1) A) (lstrlenW A + lstrlenW B + 1) B)
      = cstr A ++ cstr B := by
  have h1 : wcscpy_s (lstrlenW A + lstrlenW B + 1) A = cstr A ++ [0] := by
    simp [wcscpy_s]; omega
  have h2 : cstr (cstr A ++ [0]) = cstr A := by
    rw [cstr_append_singleton_zero, cstr_idem]
  have h3 : lstrlenW (cstr A ++ [0]) = lstrlenW A := by
    simp [lstrlenW, h2]
  rw [h1, wcscat_s, h3, if_pos (by omega), h2]
  have h4 : ∀ c ∈ cstr A ++ cstr B, c ≠ 0 := by
    intro c hc
    rcases List.mem_append.1 hc with h | h
    · exact cstr_ne_zero A c h
    · exact cstr_ne_zero B c h
  exact cstr_append_zero _ [] h4

theorem FDINotify_copyFile (os : Win32) (TargetDirectoryName : List Nat)
    (pfdin : FDINOTIFICATION) :
    FDINotify os TargetDirectoryName .fdintCOPY_FILE pfdin =
      (os.CreateFileW (targetFilePath os TargetDirectoryName pfdin) GENERIC_WRITE
          (FILE_SHARE_READ ||| FILE_SHARE_WRITE) CREATE_ALWAYS,
        dirsOf [] (targetFilePath os TargetDirectoryName pfdin) ++
          [Call.CreateFileW (targetFilePath os TargetDirectoryName pfdin) GENERIC_WRITE
            (FILE_SHARE_READ ||| FILE_SHARE_WRITE) CREATE_ALWAYS]) := by
  have hp : cstr (wcscat_s
      (wcscpy_s (lstrlenW (strdupAtoW os CP_ACP TargetDirectoryName) +
          lstrlenW (skipBackslashes (strdupAtoW os
            (if pfdin.attribs &&& _A_NAME_IS_UTF ≠ 0 then CP_UTF8 else CP_ACP) pfdin.psz1)) + 1)
        (strdupAtoW os CP_ACP TargetDirectoryName))
      (lstrlenW (strdupAtoW os CP_ACP TargetDirectoryName) +
          lstrlenW (skipBackslashes (strdupAtoW os
            (if pfdin.attribs &&& _A_NAME_IS_UTF ≠ 0 then CP_UTF8 else CP_ACP) pfdin.psz1)) + 1)
      (skipBackslashes (strdupAtoW os
        (if pfdin.attribs &&& _A_NAME_IS_UTF ≠ 0 then CP_UTF8 else CP_ACP) pfdin.psz1)))
      = targetFilePath os TargetDirectoryName pfdin := by
    rw [cstr_wcscat_wcscpy, cstr_skipBackslashes]
    simp only [strdupAtoW, cstr_append_singleton_zero, targetFilePath, decodedTarget, decodedName]
  simp only [FDINotify, CreateDirectoryRecursive_eq_dirsOf, hp]

theorem dirsOf_eq_map (P : List Nat) :
    dirsOf [] P = (((List.range P.length).filter
      (fun i => decide (P[i]? = some BACKSLASH))).map (fun i => P.take i)).map
        Call.CreateDirectoryW := by
  rw [dirsOf_eq, List.map_map]
  simp [Function.comp_def]

theorem targetFilePath_ne_zero (os : Win32) (T : List Nat) (pfdin : FDINOTIFICATION) :
    ∀ c ∈ targetFilePath os T pfdin, c ≠ 0 := by
  intro c hc
  rcases List.mem_append.1 hc with h | h
  · exact cstr_ne_zero _ c h
  · exact cstr_ne_zero _ c (List.dropWhile_sublist _ |>.subset h)

theorem and_name_is_utf (a : Nat) : a &&& _A_NAME_IS_UTF ≠ 0 ↔ a.testBit 7 = true := by
  have h128 : _A_NAME_IS_UTF = 2 ^ 7 := by decide
  rw [h128]
  constructor
  · intro h
    by_contra hb
    apply h
    apply Nat.eq_of_testBit_eq
    intro i
    simp only [Nat.testBit_and, Nat.testBit_two_pow, Nat.zero_testBit]
    by_cases hi : 7 = i
    · subst hi; simp [hb]
    · simp [hi]
  · intro hb h
    have h1 : (a &&& 2 ^ 7).testBit 7 = true := by
      rw [Nat.testBit_and, hb, Nat.testBit_two_pow_self]
      rfl
    rw [h] at h1
    simp at h1

/-! ## Claims about the callbacks -/

/-- C1: when the global directory string is `D` followed by a backslash, the
`fdintCOPY_FILE` handler creates exactly one file, at the decoded `D + "\"`
followed by `N'`, where the decoded stored name is some number of backslashes
followed by `N'` and `N'` does not begin with a backslash; all its other calls
are directory creations. -/
theorem copyFile_creates_under_target (os : Win32) (TargetDirectoryName D : List Nat)
    (pfdin : FDINOTIFICATION) (hD : cstr TargetDirectoryName = D ++ [BACKSLASH]) :
    ∃ (k : Nat) (N' : List Nat) (dirs : List (List Nat)),
      decodedName os pfdin = List.replicate k BACKSLASH ++ N' ∧
      N'.head? ≠ some BACKSLASH ∧
      (FDINotify os TargetDirectoryName .fdintCOPY_FILE pfdin).2 =
        dirs.map Call.CreateDirectoryW ++
          [Call.CreateFileW (cstr (os.MultiByteToWideChar CP_ACP (D ++ [BACKSLASH])) ++ N')
            GENERIC_WRITE (FILE_SHARE_READ ||| FILE_SHARE_WRITE) CREATE_ALWAYS] := by
  refine ⟨((decodedName os pfdin).takeWhile (fun c => c == BACKSLASH)).length,
    (decodedName os pfdin).dropWhile (fun c => c == BACKSLASH),
    ((List.range (targetFilePath os TargetDirectoryName pfdin).length).filter
      (fun i => decide ((targetFilePath os TargetDirectoryName pfdin)[i]? = some BACKSLASH))).map
        (fun i => (targetFilePath os TargetDirectoryName pfdin).take i), ?_, ?_, ?_⟩
  · have h1 : (decodedName os pfdin).takeWhile (fun c => c == BACKSLASH) =
        List.replicate ((decodedName os pfdin).takeWhile (fun c => c == BACKSLASH)).length
          BACKSLASH := by
      rw [List.eq_replicate_iff]
      refine ⟨rfl, fun b hb => ?_⟩
      simpa using List.mem_takeWhile_imp hb
    conv_lhs => rw [← List.takeWhile_append_dropWhile (fun c => c == BACKSLASH)
      (decodedName os pfdin)]
    rw [← h1]
  · intro h
    have h2 := List.head?_dropWhile_not (fun c => c == BACKSLASH) (decodedName os pfdin)
    rw [h] at h2
    simp at h2
  · rw [FDINotify_copyFile, dirsOf_eq_map]
    simp only [targetFilePath, decodedTarget, hD]

/-- C1, at a concrete call: target `out\`, stored name `\\d\a`. -/
theorem copyFile_creates_under_target_witness :
    ∃ (k : Nat) (N' : List Nat) (dirs : List (List Nat)),
      decodedName demoOS ⟨[92, 92, 100, 92, 97, 0], 0, 0, 0, 0⟩ =
        List.replicate k BACKSLASH ++ N' ∧
      N'.head? ≠ some BACKSLASH ∧
      (FDINotify demoOS [111, 117, 116, 92, 0] .fdintCOPY_FILE
          ⟨[92, 92, 100, 92, 97, 0], 0, 0, 0, 0⟩).2 =
        dirs.map Call.CreateDirectoryW ++
          [Call.CreateFileW
            (cstr (demoOS.MultiByteToWideChar CP_ACP ([111, 117, 116] ++ [BACKSLASH])) ++ N')
            GENERIC_WRITE (FILE_SHARE_READ ||| FILE_SHARE_WRITE) CREATE_ALWAYS] :=
  copyFile_creates_under_target demoOS [111, 117, 116, 92, 0] [111, 117, 116]
    ⟨[92, 92, 100, 92, 97, 0], 0, 0, 0, 0⟩ (by decide)

/-- C3, refuted at the stored name `..\evil.txt` with target `out\`: the name
has a component `..`, yet the handler requests the directories `out` and
`out\..`, creates `out\..\evil.txt` and returns the handle it got. -/
theorem copyFile_accepts_dotdot :
    [46, 46] ∈ pathComponents [46, 46, 92, 101, 118, 105, 108, 46, 116, 120, 116] ∧
    FDINotify demoOS [111, 117, 116, 92, 0] .fdintCOPY_FILE
        ⟨[46, 46, 92, 101, 118, 105, 108, 46, 116, 120, 116, 0], 0, 0, 0, 0⟩ =
      (7, [Call.CreateDirectoryW [111, 117, 116],
           Call.CreateDirectoryW [111, 117, 116, 92, 46, 46],
           Call.CreateFileW [111, 117, 116, 92, 46, 46, 92, 101, 118, 105, 108, 46, 116, 120, 116]
             GENERIC_WRITE (FILE_SHARE_READ ||| FILE_SHARE_WRITE) CREATE_ALWAYS]) ∧
    (7 : Int) ≠ INVALID_HANDLE_VALUE := by
  decide

/-- C3, amended: for every stored name, whatever its components, the
`fdintCOPY_FILE` handler makes no check of the name: it requests the creation
of the file at the target directory string followed by the name without its
leading backslashes, and returns the handle `CreateFileW` gives for it. -/
theorem copyFile_never_rejects (os : Win32) (TargetDirectoryName : List Nat)
    (pfdin : FDINOTIFICATION) :
    (FDINotify os TargetDirectoryName .fdintCOPY_FILE pfdin).1 =
      os.CreateFileW
        (decodedTarget os TargetDirectoryName ++
          (decodedName os pfdin).dropWhile (fun c => c == BACKSLASH))
        GENERIC_WRITE (FILE_SHARE_READ ||| FILE_SHARE_WRITE) CREATE_ALWAYS ∧
    Call.CreateFileW
        (decodedTarget os TargetDirectoryName ++
          (decodedName os pfdin).dropWhile (fun c => c == BACKSLASH))
        GENERIC_WRITE (FILE_SHARE_READ ||| FILE_SHARE_WRITE) CREATE_ALWAYS ∈
      (FDINotify os TargetDirectoryName .fdintCOPY_FILE pfdin).2 := by
  rw [FDINotify_copyFile]
  simp [targetFilePath]

theorem take_ne_self_of_mem_backslashes (P : List Nat) (i : Nat)
    (hi : i ∈ (List.range P.length).filter (fun i => decide (P[i]? = some BACKSLASH))) :
    P.take i ≠ P := by
  have hlt : i < P.length := List.mem_range.1 (List.mem_filter.1 hi).1
  intro h
  have := congrArg List.length h
  simp at this
  omega

theorem CreateDirectoryRecursive_eq (name : List Nat) :
    CreateDirectoryRecursive name =
      ((List.range (cstr name).length).filter
        (fun i => decide ((cstr name)[i]? = some BACKSLASH))).map
        (fun i => Call.CreateDirectoryW ((cstr name).take i)) := by
  rw [CreateDirectoryRecursive_eq_dirsOf, dirsOf_eq]
  simp

/-- C5: `CreateDirectoryRecursive(P)` requests a directory once for every
backslash of `P`, from left to right, each time for the part of `P` before
that backslash, and never for `P` itself. In the `fdintCOPY_FILE` handler
these requests, for the path of the target file, come before the creation of
the file; when the target directory string ends in a backslash, the directory
before that backslash is among them. -/
theorem CreateDirectoryRecursive_prefixes (name : List Nat) (os : Win32)
    (TargetDirectoryName : List Nat) (pfdin : FDINOTIFICATION) :
    CreateDirectoryRecursive name =
      ((List.range (cstr name).length).filter
        (fun i => decide ((cstr name)[i]? = some BACKSLASH))).map
        (fun i => Call.CreateDirectoryW ((cstr name).take i)) ∧
    Call.CreateDirectoryW (cstr name) ∉ CreateDirectoryRecursive name ∧
    (FDINotify os TargetDirectoryName .fdintCOPY_FILE pfdin).2 =
      CreateDirectoryRecursive (targetFilePath os TargetDirectoryName pfdin) ++
        [Call.CreateFileW (targetFilePath os TargetDirectoryName pfdin) GENERIC_WRITE
          (FILE_SHARE_READ ||| FILE_SHARE_WRITE) CREATE_ALWAYS] ∧
    cstr (targetFilePath os TargetDirectoryName pfdin) =
      targetFilePath os TargetDirectoryName pfdin ∧
    (∀ X, decodedTarget os TargetDirectoryName = X ++ [BACKSLASH] →
      Call.CreateDirectoryW X ∈
        CreateDirectoryRecursive (targetFilePath os TargetDirectoryName pfdin)) := by
  have hP := cstr_of_ne_zero _ (targetFilePath_ne_zero os TargetDirectoryName pfdin)
  refine ⟨CreateDirectoryRecursive_eq name, ?_, ?_, hP, ?_⟩
  · rw [CreateDirectoryRecursive_eq]
    intro h
    obtain ⟨i, hi, heq⟩ := List.mem_map.1 h
    exact take_ne_self_of_mem_backslashes _ i hi (by simpa using heq)
  · rw [FDINotify_copyFile, CreateDirectoryRecursive_eq_dirsOf, hP]
  · intro X hX
    rw [CreateDirectoryRecursive_eq, hP]
    refine List.mem_map.2 ⟨X.length, ?_, ?_⟩
    · simp [targetFilePath, hX, List.getElem_append_right]
    · simp [targetFilePath, hX]

/-- C5, at a concrete call: target `out\`, stored name `\\d\a`; the directory
`out` is requested. -/
theorem CreateDirectoryRecursive_prefixes_witness :
    Call.CreateDirectoryW [111, 117, 116] ∈
      CreateDirectoryRecursive (targetFilePath demoOS [111, 117, 116, 92, 0]
        ⟨[92, 92, 100, 92, 97, 0], 0, 0, 0, 0⟩) :=
  (CreateDirectoryRecursive_prefixes [] demoOS [111, 117, 116, 92, 0]
    ⟨[92, 92, 100, 92, 97, 0], 0, 0, 0, 0⟩).2.2.2.2 [111, 117, 116] (by decide)

theorem FDINotify_closeFileInfo (os : Win32) (TargetDirectoryName : List Nat)
    (pfdin : FDINOTIFICATION) :
    FDINotify os TargetDirectoryName .fdintCLOSE_FILE_INFO pfdin =
      (TRUE,
        [Call.SetFileTime pfdin.hf none none
            (some ((os.DosDateTimeToFileTime pfdin.date pfdin.time).getD
              { dwLowDateTime := 0, dwHighDateTime := 0 })),
          Call.CloseHandle pfdin.hf]) := by
  cases h : os.DosDateTimeToFileTime pfdin.date pfdin.time <;>
    cases hc : os.CloseHandle pfdin.hf <;> simp [FDINotify, FDIClose, h, hc]

/-- C6: the handler evaluated at two `fdintCLOSE_FILE_INFO` notifications on
handle 7. At the pair `(date, time) = (0, 0)`, which has no conversion,
`SetFileTime` is still called, with the zero-initialised `FileTime` as
last-write time, so the time passed is not the conversion of the pair. At the
pair `(0x5821, 0x6000)` the last-write time passed is the very value
`DosDateTimeToFileTime` stored, and the handler makes no other call between
the conversion and `SetFileTime`. In both runs the creation time and the
last-access time are not passed, the handle is closed and `TRUE` is returned. -/
theorem closeFileInfo_without_conversion :
    calendarOS.DosDateTimeToFileTime 0 0 = none ∧
    FDINotify calendarOS [111, 92, 0] .fdintCLOSE_FILE_INFO ⟨[], 7, 0, 0, 0⟩ =
      (TRUE, [Call.SetFileTime 7 none none (some { dwLowDateTime := 0, dwHighDateTime := 0 }),
        Call.CloseHandle 7]) ∧
    (¬ ∃ ft, calendarOS.DosDateTimeToFileTime 0 0 = some ft ∧
      FDINotify calendarOS [111, 92, 0] .fdintCLOSE_FILE_INFO ⟨[], 7, 0, 0, 0⟩ =
        (TRUE, [Call.SetFileTime 7 none none (some ft), Call.CloseHandle 7])) ∧
    calendarOS.DosDateTimeToFileTime 0x5821 0x6000 =
      some { dwLowDateTime := 0x6000, dwHighDateTime := 0x5821 } ∧
    FDINotify calendarOS [111, 92, 0] .fdintCLOSE_FILE_INFO ⟨[], 7, 0x5821, 0x6000, 0⟩ =
      (TRUE, [Call.SetFileTime 7 none none
          (some { dwLowDateTime := 0x6000, dwHighDateTime := 0x5821 }),
        Call.CloseHandle 7]) := by
  refine ⟨by decide, by decide, ?_, by decide, by decide⟩
  rintro ⟨ft, h, _⟩
  have hnone : calendarOS.DosDateTimeToFileTime 0 0 = none := by decide
  rw [hnone] at h
  cases h

/-- C8: the `fdintCOPY_FILE` handler behaves as on a name decoded with
`CP_UTF8` when bit 7 (`_A_NAME_IS_UTF`, 0x80) of `attribs` is set, and as on a
name decoded with `CP_ACP` when it is clear, whatever the other bits; the two
code pages differ. -/
theorem copyFile_name_code_page (os : Win32) (TargetDirectoryName : List Nat)
    (pfdin : FDINOTIFICATION) :
    FDINotify os TargetDirectoryName .fdintCOPY_FILE pfdin =
      copyFileNamed os TargetDirectoryName
        (os.MultiByteToWideChar (if pfdin.attribs.testBit 7 then CP_UTF8 else CP_ACP)
          (cstr pfdin.psz1)) ∧
    CP_UTF8 ≠ CP_ACP ∧ _A_NAME_IS_UTF = 2 ^ 7 := by
  refine ⟨?_, by decide, by decide⟩
  have hP := cstr_of_ne_zero _ (targetFilePath_ne_zero os TargetDirectoryName pfdin)
  have hcp : (if pfdin.attribs &&& _A_NAME_IS_UTF ≠ 0 then CP_UTF8 else CP_ACP) =
      (if pfdin.attribs.testBit 7 then CP_UTF8 else CP_ACP) := by
    by_cases hb : pfdin.attribs.testBit 7 = true
    · rw [if_pos ((and_name_is_utf _).2 hb), if_pos hb]
    · rw [if_neg (fun h => hb ((and_name_is_utf _).1 h)), if_neg hb]
  rw [FDINotify_copyFile]
  simp only [copyFileNamed, CreateDirectoryRecursive_eq_dirsOf]
  simp only [targetFilePath, decodedName, hcp] at hP ⊢
  rw [hP]

/-! ## The three strings of `extract` -/

theorem toInt_of_lt (n : Nat) (h : n < 2 ^ 31) : toInt n = (n : Int) := by
  unfold toInt Int.bmod
  norm_num at h ⊢
  omega

theorem toSizeT_natCast (n : Nat) (h : n < 2 ^ 31) : toSizeT (n : Int) = n := by
  unfold toSizeT
  norm_num at h ⊢
  omega

theorem toULONG_addInt_one (n : Nat) (h : n < 2 ^ 31) : toULONG (addInt (n : Int) 1) = n + 1 := by
  unfold toULONG addInt Int.bmod
  norm_num at h ⊢
  split <;> omega

theorem toULONG_addInt_two (n : Nat) (h : n < 2 ^ 31) : toULONG (addInt (n : Int) 2) = n + 2 := by
  unfold toULONG addInt Int.bmod
  norm_num at h ⊢
  split <;> omega

theorem strncpy_length (s : List Nat) (hs : ∀ c ∈ s, c ≠ 0) : strncpy s s.length = .ok s := by
  induction s with
  | nil => rfl
  | cons c cs ih =>
    have hc : c ≠ 0 := hs c (by simp)
    have ih1 := ih (fun d hd => hs d (by simp [hd]))
    simp [strncpy, hc, ih1]

theorem store_fresh (n : Nat) (s : List Nat) (h : s.length ≤ n) :
    (FDIAlloc n).store 0 s = .ok { size := n, cells := s.map some } := by
  unfold Buffer.store FDIAlloc
  by_cases hs : s = []
  · subst hs; simp
  · rw [if_neg hs, if_neg (by decide), if_neg (by simpa using h)]
    simp

theorem store_after (n : Nat) (s t : List Nat) (h : s.length + t.length ≤ n) :
    Buffer.store { size := n, cells := s.map some } (s.length : Int) t =
      .ok { size := n, cells := (s ++ t).map some } := by
  unfold Buffer.store
  by_cases ht : t = []
  · subst ht; simp
  · rw [if_neg ht, if_neg (by omega), if_neg (by simpa using h)]
    have h1 : List.take s.length (List.map some s) = List.map some s :=
      List.take_of_length_le (by simp)
    have h2 : List.drop (s.length + t.length) (List.map some s) = [] :=
      List.drop_eq_nil_of_le (by simp)
    simp [h1, h2]

theorem store_after_past (n : Nat) (s t : List Nat) (ht : t ≠ []) (h : n < s.length + t.length) :
    Buffer.store { size := n, cells := s.map some } (s.length : Int) t =
      .error .writePastEnd := by
  unfold Buffer.store
  rw [if_neg ht, if_neg (by omega), if_pos (by simpa using h)]

theorem store_fresh_past (n : Nat) (s : List Nat) (h : n < s.length) :
    (FDIAlloc n).store 0 s = .error .writePastEnd := by
  unfold Buffer.store FDIAlloc
  have hs : s ≠ [] := by
    intro h0; subst h0; simp at h
  rw [if_neg hs, if_neg (by decide), if_pos (by simpa using h)]

theorem strncpy_zero (s : List Nat) : strncpy s 0 = .ok [] := by
  cases s <;> rfl

theorem build_TargetDirectoryName_of_toInt_zero (s : List Nat) (h : toInt s.length = 0) :
    build_TargetDirectoryName s =
      .ok { size := MAX_PATH_W, cells := [some BACKSLASH, some 0] } := by
  have hz : toSizeT 0 = 0 := by decide
  have hlit : strncpy backslashLiteral 2 = .ok [BACKSLASH, 0] := rfl
  simp only [build_TargetDirectoryName, h, hz, strncpy_zero, hlit]
  rfl

theorem build_CABFilePart_of_toInt_zero (s : List Nat) (h : toInt s.length = 0) :
    build_CABFilePart s = .ok { size := 1, cells := [some 0] } := by
  have hz : toSizeT 0 = 0 := by decide
  simp only [build_CABFilePart, h, hz, strncpy_zero]
  rfl

/-- C10, refuted at an `out_path` of 2^32 bytes `a`: it has no NUL and is
longer than 32765 bytes, yet `outPathLength` is 0 and the two bytes stored
into `TargetDirectoryName` are its first two. At a `file_name` of the same
form `CABFilePart` holds the empty string, not `file_name`. -/
theorem long_strings_wrap :
    (∀ c ∈ List.replicate 4294967296 97, c ≠ 0) ∧
    32765 < (List.replicate 4294967296 97).length ∧
    build_TargetDirectoryName (List.replicate 4294967296 97) =
      .ok { size := MAX_PATH_W, cells := [some BACKSLASH, some 0] } ∧
    build_CABFilePart (List.replicate 4294967296 97) =
      .ok { size := 1, cells := [some 0] } := by
  have h0 : toInt (List.replicate 4294967296 97).length = 0 := by
    rw [List.length_replicate]
    decide
  refine ⟨?_, ?_, build_TargetDirectoryName_of_toInt_zero _ h0,
    build_CABFilePart_of_toInt_zero _ h0⟩
  · intro c hc
    rw [List.eq_of_mem_replicate hc]
    decide
  · rw [List.length_replicate]
    decide

/-- C10, amended: for `file_name`, `file_dir` and `out_path` without a NUL
byte and shorter than 2^31 bytes, the stores that build `CABFilePart` (size
len+1) and `CABPathPart` (size len+2) stay inside their blocks, which then hold
`file_name` and `file_dir + "\"` with their terminating NUL; the stores into
`TargetDirectoryName` (size 32767) stay inside it and leave `out_path + "\"`
with its NUL when `out_path` has at most 32765 bytes, and go past its end when
it has more. -/
theorem extract_strings (file_name file_dir out_path : List Nat)
    (hn : ∀ c ∈ file_name, c ≠ 0) (hd : ∀ c ∈ file_dir, c ≠ 0) (ho : ∀ c ∈ out_path, c ≠ 0)
    (hln : file_name.length < 2 ^ 31) (hld : file_dir.length < 2 ^ 31)
    (hlo : out_path.length < 2 ^ 31) :
    build_CABFilePart file_name =
      .ok { size := file_name.length + 1, cells := (file_name ++ [0]).map some } ∧
    build_CABPathPart file_dir =
      .ok { size := file_dir.length + 2, cells := (file_dir ++ [BACKSLASH, 0]).map some } ∧
    build_TargetDirectoryName out_path =
      (if out_path.length ≤ 32765 then
        .ok { size := MAX_PATH_W, cells := (out_path ++ [BACKSLASH, 0]).map some }
      else .error .writePastEnd) := by
  have hlit : strncpy backslashLiteral 2 = .ok [BACKSLASH, 0] := rfl
  refine ⟨?_, ?_, ?_⟩
  · simp only [build_CABFilePart, toInt_of_lt _ hln, toSizeT_natCast _ hln,
      toULONG_addInt_one _ hln, strncpy_length _ hn]
    rw [store_fresh _ _ (by omega)]
    exact store_after _ _ _ (by simp)
  · simp only [build_CABPathPart, toInt_of_lt _ hld, toSizeT_natCast _ hld,
      toULONG_addInt_two _ hld, strncpy_length _ hd, hlit]
    rw [store_fresh _ _ (by omega)]
    exact store_after _ _ _ (by simp)
  · simp only [build_TargetDirectoryName, toInt_of_lt _ hlo, toSizeT_natCast _ hlo,
      strncpy_length _ ho, hlit]
    by_cases h : out_path.length ≤ 32765
    · rw [if_pos h, store_fresh _ _ (by simp [MAX_PATH_W]; omega)]
      exact store_after _ _ _ (by simp [MAX_PATH_W]; omega)
    · rw [if_neg h]
      by_cases h2 : out_path.length ≤ MAX_PATH_W
      · rw [store_fresh _ _ h2]
        exact store_after_past _ _ _ (by simp) (by simp [MAX_PATH_W]; omega)
      · rw [store_fresh_past _ _ (by omega)]

/-- What `FDINotify` reads from the global after `extract` has stored a short
`out_path` without a NUL: `out_path` followed by a backslash. -/
theorem build_TargetDirectoryName_cstr (out_path : List Nat) (ho : ∀ c ∈ out_path, c ≠ 0)
    (hlo : out_path.length ≤ 32765) :
    ∃ b, build_TargetDirectoryName out_path = .ok b ∧ cstr b.mem = out_path ++ [BACKSLASH] := by
  have hlit : strncpy backslashLiteral 2 = .ok [BACKSLASH, 0] := rfl
  have hl : out_path.length < 2 ^ 31 := by
    have : (32765 : Nat) < 2 ^ 31 := by decide
    omega
  refine ⟨{ size := MAX_PATH_W, cells := (out_path ++ [BACKSLASH, 0]).map some }, ?_, ?_⟩
  · simp only [build_TargetDirectoryName, toInt_of_lt _ hl, toSizeT_natCast _ hl,
      strncpy_length _ ho, hlit]
    rw [store_fresh _ _ (by simp [MAX_PATH_W]; omega)]
    exact store_after _ _ _ (by simp [MAX_PATH_W]; omega)
  · have hmem : (Buffer.mk MAX_PATH_W ((out_path ++ [BACKSLASH, 0]).map some)).mem
        = out_path ++ [BACKSLASH, 0] := by
      unfold Buffer.mem
      have h1 : List.takeWhile Option.isSome ((out_path ++ [BACKSLASH, 0]).map some)
          = (out_path ++ [BACKSLASH, 0]).map some := by
        rw [List.takeWhile_eq_self_iff]
        intro x hx
        obtain ⟨y, _, rfl⟩ := List.mem_map.1 hx
        rfl
      simp only [h1, List.filterMap_map]
      simp
    rw [hmem]
    have h2 : out_path ++ [BACKSLASH, 0] = (out_path ++ [BACKSLASH]) ++ 0 :: [] := by simp
    rw [h2]
    refine cstr_append_zero _ [] ?_
    intro c hc
    rcases List.mem_append.1 hc with h | h
    · exact ho c h
    · simp only [List.mem_singleton] at h
      subst h
      decide

/-- C10, amended, at `file_name = "x.c"`, `file_dir = "d"`, `out_path = "o"`. -/
theorem extract_strings_witness :
    build_CABFilePart [120, 46, 99] =
      .ok { size := [120, 46, 99].length + 1, cells := ([120, 46, 99] ++ [0]).map some } ∧
    build_CABPathPart [100] =
      .ok { size := [100].length + 2, cells := ([100] ++ [BACKSLASH, 0]).map some } ∧
    build_TargetDirectoryName [111] =
      (if [111].length ≤ 32765 then
        .ok { size := MAX_PATH_W, cells := ([111] ++ [BACKSLASH, 0]).map some }
      else .error .writePastEnd) :=
  extract_strings [120, 46, 99] [100] [111] (by decide) (by decide) (by decide)
    (by decide) (by decide) (by decide)

/-! ## `extract` -/

/-- The ways a run of `extract` can go. -/
theorem extract_cases (os : Win32) (fdi : Cabinet) (file_name file_dir out_path : List Nat) :
    (∃ f, extract os fdi file_name file_dir out_path = ⟨.fault f, []⟩) ∨
    (extract os fdi file_name file_dir out_path = ⟨.returned false, [.HeapAlloc MAX_PATH_W false]⟩) ∨
    (∃ f, extract os fdi file_name file_dir out_path = ⟨.fault f, [.HeapAlloc MAX_PATH_W true]⟩) ∨
    (extract os fdi file_name file_dir out_path =
      ⟨.returned false, [.HeapAlloc MAX_PATH_W true, .FDICreate false]⟩) ∨
    (∃ f, extract os fdi file_name file_dir out_path =
      ⟨.fault f, [.HeapAlloc MAX_PATH_W true, .FDICreate true]⟩) ∨
    (∃ name, extract os fdi file_name file_dir out_path =
      ⟨.returned false, [.HeapAlloc MAX_PATH_W true, .FDICreate true,
        .CreateFileW name GENERIC_READ FILE_SHARE_READ OPEN_EXISTING INVALID_HANDLE_VALUE]⟩) ∨
    (∃ name hf, hf ≠ INVALID_HANDLE_VALUE ∧ extract os fdi file_name file_dir out_path =
      ⟨.returned false, [.HeapAlloc MAX_PATH_W true, .FDICreate true,
        .CreateFileW name GENERIC_READ FILE_SHARE_READ OPEN_EXISTING hf,
        .FDIIsCabinet hf none]⟩) ∨
    (∃ name hf info, hf ≠ INVALID_HANDLE_VALUE ∧ (info.hasprev || info.hasnext) = true ∧
      extract os fdi file_name file_dir out_path =
      ⟨.returned false, [.HeapAlloc MAX_PATH_W true, .FDICreate true,
        .CreateFileW name GENERIC_READ FILE_SHARE_READ OPEN_EXISTING hf,
        .FDIIsCabinet hf (some info)]⟩) ∨
    (∃ name hf info cab path cbs, hf ≠ INVALID_HANDLE_VALUE ∧
      (info.hasprev || info.hasnext) = false ∧
      extract os fdi file_name file_dir out_path =
      ⟨.returned false, [.HeapAlloc MAX_PATH_W true, .FDICreate true,
        .CreateFileW name GENERIC_READ FILE_SHARE_READ OPEN_EXISTING hf,
        .FDIIsCabinet hf (some info), .CloseHandle hf, .FDICopy cab path cbs false]⟩) ∨
    (∃ name hf info cab path cbs, hf ≠ INVALID_HANDLE_VALUE ∧
      (info.hasprev || info.hasnext) = false ∧
      extract os fdi file_name file_dir out_path =
      ⟨.returned true, [.HeapAlloc MAX_PATH_W true, .FDICreate true,
        .CreateFileW name GENERIC_READ FILE_SHARE_READ OPEN_EXISTING hf,
        .FDIIsCabinet hf (some info), .CloseHandle hf, .FDICopy cab path cbs true,
        .FDIDestroy]⟩) := by
  unfold extract
  cases h1 : build_CABFilePart file_name with
  | error f => exact Or.inl ⟨f, rfl⟩
  | ok CABFilePart =>
  cases h2 : build_CABPathPart file_dir with
  | error f => exact Or.inl ⟨f, rfl⟩
  | ok CABPathPart =>
  cases h3 : fdi.HeapAlloc MAX_PATH_W with
  | false => exact Or.inr (Or.inl (by simp))
  | true =>
  cases h4 : build_TargetDirectoryName out_path with
  | error f => exact Or.inr (Or.inr (Or.inl ⟨f, by simp⟩))
  | ok TargetDirectoryName =>
  cases h5 : fdi.FDICreate with
  | false => exact Or.inr (Or.inr (Or.inr (Or.inl (by simp))))
  | true =>
  simp only [Bool.true_eq_false, if_false, List.cons_append, List.nil_append]
  cases h6 : strcpy_s MAX_PATH_W CABPathPart.mem with
  | none => exact Or.inr (Or.inr (Or.inr (Or.inr (Or.inl ⟨_, rfl⟩))))
  | some CABFileFullName0 =>
  simp only []
  cases h7 : strcat_s CABFileFullName0 MAX_PATH_W CABFilePart.mem with
  | none => exact Or.inr (Or.inr (Or.inr (Or.inr (Or.inl ⟨_, rfl⟩))))
  | some CABFileFullName =>
  refine Or.inr (Or.inr (Or.inr (Or.inr (Or.inr ?_))))
  simp only []
  generalize os.CreateFileW (cstr (strdupAtoW os CP_ACP CABFileFullName)) GENERIC_READ
    FILE_SHARE_READ OPEN_EXISTING = hf
  by_cases h8 : hf = INVALID_HANDLE_VALUE
  · exact Or.inl ⟨_, by rw [if_pos h8, h8]⟩
  · refine Or.inr ?_
    rw [if_neg h8]
    cases h9 : fdi.FDIIsCabinet hf with
    | none => exact Or.inl ⟨_, hf, h8, rfl⟩
    | some info =>
    refine Or.inr ?_
    simp only []
    cases h10 : (info.hasprev || info.hasnext) with
    | true =>
      rw [if_pos rfl]
      exact Or.inl ⟨_, hf, info, h8, h10, rfl⟩
    | false =>
    refine Or.inr ?_
    rw [if_neg (by decide)]
    cases h11 : (fdi.FDICopy (cstr CABFilePart.mem) (cstr CABPathPart.mem)
        (FDINotify os TargetDirectoryName.mem) (FDIWrite os)).1 with
    | false =>
      rw [if_pos rfl]
      exact Or.inl ⟨_, hf, info, _, _, _, h8, h10, rfl⟩
    | true =>
      rw [if_neg (by decide)]
      exact Or.inr ⟨_, hf, info, _, _, _, h8, h10, rfl⟩

/-- Every step of a run records the answer the environment gave. -/
theorem extract_steps_answered (os : Win32) (fdi : Cabinet)
    (file_name file_dir out_path : List Nat) :
    ∀ s ∈ (extract os fdi file_name file_dir out_path).steps,
      Step.Answered os fdi out_path s := by
  unfold extract
  cases h1 : build_CABFilePart file_name with
  | error f => intro s hs; simp at hs
  | ok CABFilePart =>
  cases h2 : build_CABPathPart file_dir with
  | error f => intro s hs; simp at hs
  | ok CABPathPart =>
  have a1 : Step.Answered os fdi out_path
      (Step.HeapAlloc MAX_PATH_W (fdi.HeapAlloc MAX_PATH_W)) := rfl
  have a2 : Step.Answered os fdi out_path (Step.FDICreate fdi.FDICreate) := rfl
  simp only []
  split
  · intro s hs
    simp only [List.mem_append, List.mem_cons, List.mem_singleton, List.not_mem_nil, or_false,
      or_assoc] at hs
    subst hs
    exact a1
  · cases h4 : build_TargetDirectoryName out_path with
    | error f =>
      intro s hs
      simp only [List.mem_append, List.mem_cons, List.mem_singleton, List.not_mem_nil, or_false,
      or_assoc] at hs
      subst hs
      exact a1
    | ok TargetDirectoryName =>
    simp only []
    split
    · intro s hs
      simp only [List.mem_append, List.mem_cons, List.mem_singleton, List.not_mem_nil, or_false,
      or_assoc] at hs
      rcases hs with rfl | rfl
      · exact a1
      · exact a2
    · cases h6 : strcpy_s MAX_PATH_W CABPathPart.mem with
      | none =>
        intro s hs
        simp only [List.mem_append, List.mem_cons, List.mem_singleton, List.not_mem_nil, or_false,
      or_assoc] at hs
        rcases hs with rfl | rfl
        · exact a1
        · exact a2
      | some CABFileFullName0 =>
      simp only []
      cases h7 : strcat_s CABFileFullName0 MAX_PATH_W CABFilePart.mem with
      | none =>
        intro s hs
        simp only [List.mem_append, List.mem_cons, List.mem_singleton, List.not_mem_nil, or_false,
      or_assoc] at hs
        rcases hs with rfl | rfl
        · exact a1
        · exact a2
      | some CABFileFullName =>
      simp only []
      have a3 : Step.Answered os fdi out_path
          (Step.CreateFileW (cstr (strdupAtoW os CP_ACP CABFileFullName)) GENERIC_READ
            FILE_SHARE_READ OPEN_EXISTING
            (os.CreateFileW (cstr (strdupAtoW os CP_ACP CABFileFullName)) GENERIC_READ
              FILE_SHARE_READ OPEN_EXISTING)) := rfl
      have a4 : Step.Answered os fdi out_path
          (Step.FDIIsCabinet
            (os.CreateFileW (cstr (strdupAtoW os CP_ACP CABFileFullName)) GENERIC_READ
              FILE_SHARE_READ OPEN_EXISTING)
            (fdi.FDIIsCabinet (os.CreateFileW (cstr (strdupAtoW os CP_ACP CABFileFullName))
              GENERIC_READ FILE_SHARE_READ OPEN_EXISTING))) := rfl
      have a5 : Step.Answered os fdi out_path
          (Step.FDICopy (cstr CABFilePart.mem) (cstr CABPathPart.mem)
            (fdi.FDICopy (cstr CABFilePart.mem) (cstr CABPathPart.mem)
              (FDINotify os TargetDirectoryName.mem) (FDIWrite os)).2
            (fdi.FDICopy (cstr CABFilePart.mem) (cstr CABPathPart.mem)
              (FDINotify os TargetDirectoryName.mem) (FDIWrite os)).1) :=
        ⟨TargetDirectoryName, h4, rfl⟩
      split
      · intro s hs
        simp only [List.mem_append, List.mem_cons, List.mem_singleton, List.not_mem_nil, or_false,
      or_assoc] at hs
        rcases hs with rfl | rfl | rfl
        · exact a1
        · exact a2
        · exact a3
      · split
        · intro s hs
          simp only [List.mem_append, List.mem_cons, List.mem_singleton, List.not_mem_nil, or_false,
      or_assoc] at hs
          rcases hs with rfl | rfl | rfl | rfl
          · exact a1
          · exact a2
          · exact a3
          · exact a4
        · split
          · intro s hs
            simp only [List.mem_append, List.mem_cons, List.mem_singleton, List.not_mem_nil, or_false,
      or_assoc] at hs
            rcases hs with rfl | rfl | rfl | rfl
            · exact a1
            · exact a2
            · exact a3
            · exact a4
          · split
            · intro s hs
              simp only [List.mem_append, List.mem_cons, List.mem_singleton, List.not_mem_nil, or_false,
      or_assoc] at hs
              rcases hs with rfl | rfl | rfl | rfl | rfl | rfl
              · exact a1
              · exact a2
              · exact a3
              · exact a4
              · trivial
              · exact a5
            · intro s hs
              simp only [List.mem_append, List.mem_cons, List.mem_singleton, List.not_mem_nil, or_false,
      or_assoc] at hs
              rcases hs with rfl | rfl | rfl | rfl | rfl | rfl | rfl
              · exact a1
              · exact a2
              · exact a3
              · exact a4
              · trivial
              · exact a5
              · trivial

/-- The result of `extract` in terms of the answers of its environment, when
the three strings and the cabinet file name are built without a fault. -/
theorem extract_result_of_answers (os : Win32) (fdi : Cabinet)
    (file_name file_dir out_path : List Nat) (A B T : Buffer) (name0 name : List Nat)
    (hA : build_CABFilePart file_name = .ok A) (hB : build_CABPathPart file_dir = .ok B)
    (hT : build_TargetDirectoryName out_path = .ok T)
    (hcpy : strcpy_s MAX_PATH_W B.mem = some name0)
    (hcat : strcat_s name0 MAX_PATH_W A.mem = some name) :
    ((extract os fdi file_name file_dir out_path).result = .returned true ↔
      fdi.HeapAlloc MAX_PATH_W = true ∧ fdi.FDICreate = true ∧
      cabinetHandle os name ≠ INVALID_HANDLE_VALUE ∧
      (∃ info, fdi.FDIIsCabinet (cabinetHandle os name) = some info ∧
        info.hasprev = false ∧ info.hasnext = false) ∧
      (fdi.FDICopy (cstr A.mem) (cstr B.mem) (FDINotify os T.mem) (FDIWrite os)).1 = true) ∧
    ((extract os fdi file_name file_dir out_path).result = .returned true ∨
      (extract os fdi file_name file_dir out_path).result = .returned false) := by
  unfold extract cabinetHandle
  simp only [hA, hB, hT, hcpy, hcat]
  generalize os.CreateFileW (cstr (strdupAtoW os CP_ACP name)) GENERIC_READ
    FILE_SHARE_READ OPEN_EXISTING = hf
  generalize (fdi.FDICopy (cstr A.mem) (cstr B.mem) (FDINotify os T.mem) (FDIWrite os)).1 = copied
  cases fdi.HeapAlloc MAX_PATH_W <;> cases fdi.FDICreate <;>
    by_cases h8 : hf = INVALID_HANDLE_VALUE <;>
    cases fdi.FDIIsCabinet hf with
    | none => simp [h8]
    | some info =>
      cases h9 : info.hasprev <;> cases h10 : info.hasnext <;> cases copied <;>
        simp [h8, h9, h10]

/-- C9: `extract` returns true exactly when its six tests were all made and
all passed, in the order: target-directory block allocated, context created,
cabinet opened, cabinet accepted, no previous or next cabinet, copy
succeeded. It returns false exactly when the tests made are some of the
first ones, all passed, followed by one that failed, after which no test is
made. `FDICopy` is called exactly when the first five tests passed. Every
outcome tested is the answer the heap, the operating system or the cabinet
library gave to that call. When the strings are built without a fault,
`extract` returns true if the allocation, `FDICreate`, the opening of the
cabinet file, `FDIIsCabinet` with both flags clear and `FDICopy` all
succeeded, and false otherwise. -/
theorem extract_true_iff_all_pass (os : Win32) (fdi : Cabinet)
    (file_name file_dir out_path : List Nat) :
    ((extract os fdi file_name file_dir out_path).result = .returned true ↔
      verdicts (extract os fdi file_name file_dir out_path).steps =
        guardOrder.map (fun g => (g, true))) ∧
    ((extract os fdi file_name file_dir out_path).result = .returned false ↔
      ∃ k, k < guardOrder.length ∧
        verdicts (extract os fdi file_name file_dir out_path).steps =
          (guardOrder.take k).map (fun g => (g, true)) ++
            ((guardOrder.drop k).take 1).map (fun g => (g, false))) ∧
    ((∃ s ∈ (extract os fdi file_name file_dir out_path).steps, s.isFDICopy = true) ↔
      (verdicts (extract os fdi file_name file_dir out_path).steps).take 5 =
        (guardOrder.take 5).map (fun g => (g, true))) ∧
    (∀ s ∈ (extract os fdi file_name file_dir out_path).steps,
      Step.Answered os fdi out_path s) ∧
    (∀ (A B T : Buffer) (name0 name : List Nat),
      build_CABFilePart file_name = .ok A → build_CABPathPart file_dir = .ok B →
      build_TargetDirectoryName out_path = .ok T →
      strcpy_s MAX_PATH_W B.mem = some name0 →
      strcat_s name0 MAX_PATH_W A.mem = some name →
      ((extract os fdi file_name file_dir out_path).result = .returned true ↔
        fdi.HeapAlloc MAX_PATH_W = true ∧ fdi.FDICreate = true ∧
        cabinetHandle os name ≠ INVALID_HANDLE_VALUE ∧
        (∃ info, fdi.FDIIsCabinet (cabinetHandle os name) = some info ∧
          info.hasprev = false ∧ info.hasnext = false) ∧
        (fdi.FDICopy (cstr A.mem) (cstr B.mem) (FDINotify os T.mem) (FDIWrite os)).1 = true) ∧
      ((extract os fdi file_name file_dir out_path).result = .returned true ∨
        (extract os fdi file_name file_dir out_path).result = .returned false)) := by
  refine ⟨?_, ?_, ?_, extract_steps_answered os fdi file_name file_dir out_path,
    fun A B T name0 name hA hB hT hcpy hcat =>
      extract_result_of_answers os fdi file_name file_dir out_path A B T name0 name
        hA hB hT hcpy hcat⟩
  all_goals
    rcases extract_cases os fdi file_name file_dir out_path with
      ⟨f, h⟩ | h | ⟨f, h⟩ | h | ⟨f, h⟩ | ⟨name, h⟩ | ⟨name, hf, h8, h⟩ |
      ⟨name, hf, info, h8, h10, h⟩ | ⟨name, hf, info, cab, path, cbs, h8, h10, h⟩ |
      ⟨name, hf, info, cab, path, cbs, h8, h10, h⟩
  all_goals rw [h]
  all_goals simp only [verdicts, List.map, List.flatten, Step.verdicts, List.append_nil,
    List.cons_append, List.nil_append, ne_eq, not_false_eq_true, decide_True,
    decide_False, Bool.not_true, Bool.not_false, not_true_eq_false, List.mem_cons,
    List.mem_singleton, exists_eq_or_imp, exists_eq_left, Step.isFDICopy, List.not_mem_nil,
    false_and, exists_false, Bool.false_eq_true, false_or, or_false, reduceCtorEq, *]
  all_goals decide

/-- C2: when `FDIIsCabinet` has reported a cabinet with a previous or a next
cabinet, `extract` returns false, `FDICopy` is not called, and the only steps
of the run are the allocation, `FDICreate`, the opening of the cabinet file for
reading and `FDIIsCabinet`: no callback runs and no output file is opened. -/
theorem extract_rejects_multi_volume (os : Win32) (fdi : Cabinet)
    (file_name file_dir out_path : List Nat) (hf : Int) (info : FDICABINETINFO)
    (hcab : Step.FDIIsCabinet hf (some info) ∈ (extract os fdi file_name file_dir out_path).steps)
    (hcont : info.hasprev = true ∨ info.hasnext = true) :
    (extract os fdi file_name file_dir out_path).result = .returned false ∧
    (∀ s ∈ (extract os fdi file_name file_dir out_path).steps, s.isFDICopy = false) ∧
    ∃ name, (extract os fdi file_name file_dir out_path).steps =
      [.HeapAlloc MAX_PATH_W true, .FDICreate true,
        .CreateFileW name GENERIC_READ FILE_SHARE_READ OPEN_EXISTING hf,
        .FDIIsCabinet hf (some info)] := by
  have hflag : (info.hasprev || info.hasnext) = true := by
    simpa [Bool.or_eq_true] using hcont
  rcases extract_cases os fdi file_name file_dir out_path with
    ⟨f, h⟩ | h | ⟨f, h⟩ | h | ⟨f, h⟩ | ⟨name, h⟩ | ⟨name, hf1, h8, h⟩ |
    ⟨name, hf1, info1, h8, h10, h⟩ | ⟨name, hf1, info1, cab, path, cbs, h8, h10, h⟩ |
    ⟨name, hf1, info1, cab, path, cbs, h8, h10, h⟩
  all_goals rw [h] at hcab ⊢
  all_goals simp only [List.mem_cons, List.mem_singleton, List.not_mem_nil, reduceCtorEq,
    false_or, or_false, Step.FDIIsCabinet.injEq, Option.some.injEq, and_false] at hcab
  · obtain ⟨rfl, rfl⟩ := hcab
    exact ⟨rfl, by simp [Step.isFDICopy], name, rfl⟩
  · obtain ⟨rfl, rfl⟩ := hcab
    rw [hflag] at h10
    exact absurd h10 (by decide)
  · obtain ⟨rfl, rfl⟩ := hcab
    rw [hflag] at h10
    exact absurd h10 (by decide)

/-- C2, on a cabinet that is the second volume of a set. -/
theorem extract_rejects_multi_volume_witness :
    (extract demoOS secondVolumeFDI [120, 46, 99] [100] [111]).result = .returned false ∧
    (∀ s ∈ (extract demoOS secondVolumeFDI [120, 46, 99] [100] [111]).steps,
      s.isFDICopy = false) ∧
    ∃ name, (extract demoOS secondVolumeFDI [120, 46, 99] [100] [111]).steps =
      [.HeapAlloc MAX_PATH_W true, .FDICreate true,
        .CreateFileW name GENERIC_READ FILE_SHARE_READ OPEN_EXISTING 7,
        .FDIIsCabinet 7 (some { hasprev := true, hasnext := false })] :=
  extract_rejects_multi_volume demoOS secondVolumeFDI [120, 46, 99] [100] [111] 7
    { hasprev := true, hasnext := false } (by decide) (by decide)

/-- C9, on a single-volume cabinet with one file and the strings `x.c`, `d`,
`o`: all five answers are successes, so the run returns true. -/
theorem extract_true_iff_all_pass_witness :
    (extract demoOS demoFDI [120, 46, 99] [100] [111]).result = .returned true :=
  ((extract_true_iff_all_pass demoOS demoFDI [120, 46, 99] [100] [111]).2.2.2.2
    ⟨4, [some 120, some 46, some 99, some 0]⟩ ⟨3, [some 100, some 92, some 0]⟩
    ⟨MAX_PATH_W, [some 111, some 92, some 0]⟩ [100, 92, 0] [100, 92, 120, 46, 99, 0]
    rfl rfl rfl rfl rfl).1.2
    ⟨rfl, rfl, by decide, ⟨⟨false, false⟩, rfl, rfl, rfl⟩, rfl⟩

/-! ## The copy step -/

theorem slice_append (c rest : List Nat) (a b : Nat) :
    slice (c ++ rest) a b = slice c a b ++ slice rest (a - c.length) (b - c.length) := by
  unfold slice
  rw [List.drop_append_eq_append_drop, List.take_append_eq_append_take]
  congr 2
  simp only [List.length_drop]
  omega

theorem slice_nil (a b : Nat) : slice [] a b = [] := by
  simp [slice]

theorem slice_eq_nil_of_le (s : List Nat) (a b : Nat) (h : b ≤ a) : slice s a b = [] := by
  unfold slice
  rw [Nat.sub_eq_zero_of_le h]
  simp

theorem slice_eq_nil_of_length_le (s : List Nat) (a b : Nat) (h : s.length ≤ a) :
    slice s a b = [] := by
  unfold slice
  rw [List.drop_eq_nil_of_le h]
  simp

theorem writtenBuffers_append (l1 l2 : List Call) :
    writtenBuffers (l1 ++ l2) = writtenBuffers l1 ++ writtenBuffers l2 := by
  induction l1 with
  | nil => rfl
  | cons c cs ih => cases c <;> simp [writtenBuffers, ih]

theorem writtenBuffers_dirsOf (rest : List Nat) : ∀ pre, writtenBuffers (dirsOf pre rest) = [] := by
  induction rest with
  | nil => intro pre; rfl
  | cons c cs ih =>
    intro pre
    unfold dirsOf
    split <;> simp [writtenBuffers, ih]

theorem writtenBuffers_copyFile (os : Win32) (T : List Nat) (pfdin : FDINOTIFICATION) :
    writtenBuffers (FDINotify os T .fdintCOPY_FILE pfdin).2 = [] := by
  rw [FDINotify_copyFile, writtenBuffers_append, writtenBuffers_dirsOf]
  rfl

theorem writtenBuffers_closeFileInfo (os : Win32) (T : List Nat) (pfdin : FDINOTIFICATION) :
    writtenBuffers (FDINotify os T .fdintCLOSE_FILE_INFO pfdin).2 = [] := by
  rw [FDINotify_closeFileInfo]
  rfl

theorem FDIWrite_calls (os : Win32) (hf : Int) (pv : List Nat) :
    (FDIWrite os hf pv).2 = [Call.WriteFile hf pv] := by
  unfold FDIWrite
  split <;> rfl

theorem writesOn_append (h : Int) (l1 l2 : List Call) :
    WritesOn h (l1 ++ l2) ↔ WritesOn h l1 ∧ WritesOn h l2 := by
  unfold WritesOn
  constructor
  · intro H
    exact ⟨fun c hc => H c (List.mem_append_left _ hc), fun c hc => H c (List.mem_append_right _ hc)⟩
  · rintro ⟨H1, H2⟩ c hc
    rcases List.mem_append.1 hc with h' | h'
    · exact H1 c h'
    · exact H2 c h'

theorem writesOn_of_writtenBuffers_nil (h : Int) (l : List Call) (hl : writtenBuffers l = []) :
    WritesOn h l := by
  induction l with
  | nil => intro c hc; simp at hc
  | cons c cs ih =>
    cases c with
    | WriteFile h1 buf => simp [writtenBuffers] at hl
    | _ =>
      intro c hc h1 buf heq
      simp only [List.mem_cons] at hc
      rcases hc with rfl | hc
      · cases heq
      · exact ih (by simpa [writtenBuffers] using hl) c hc h1 buf heq

theorem writesOn_written (os : Win32) (hf : Int) (piece : List Nat) :
    WritesOn hf (if piece = [] then [] else (FDIWrite os hf piece).2) := by
  split
  · intro c hc; simp at hc
  · rw [FDIWrite_calls]
    intro c hc h1 buf heq
    simp only [List.mem_singleton] at hc
    subst hc
    cases heq
    rfl

theorem flatten_written (os : Win32) (hf : Int) (piece : List Nat) :
    (writtenBuffers (if piece = [] then [] else (FDIWrite os hf piece).2)).flatten = piece := by
  split
  · next h => simp [writtenBuffers, h]
  · rw [FDIWrite_calls]
    simp [writtenBuffers]

theorem slice_untouched (chunk : List Nat) (u a cb : Nat)
    (h : (decide (a < u + chunk.length) &&
      (decide (u < a + cb) || (cb == 0 && decide (u ≤ a)))) = false) :
    slice chunk (a - u) (a + cb - u) = [] := by
  by_cases h1 : a < u + chunk.length
  · by_cases h2 : u < a + cb
    · simp [h1, h2] at h
    · exact slice_eq_nil_of_le _ _ _ (by omega)
  · exact slice_eq_nil_of_length_le _ _ _ (by omega)

theorem routeOpen_spec (os : Win32) (T : List Nat) (u : Nat) (chunk : List Nat) (r : Routed)
    (hf : Int) (made : List Call)
    (hok : (routeOpen (FDINotify os T) (FDIWrite os) u chunk r hf made).ok = true)
    (hhf : hf = outputHandle os T r.entry)
    (hw : WritesOn (outputHandle os T r.entry) r.calls) (hmade : writtenBuffers made = []) :
    (routeOpen (FDINotify os T) (FDIWrite os) u chunk r hf made).state.entry = r.entry ∧
    (writtenBuffers (routeOpen (FDINotify os T) (FDIWrite os) u chunk r hf made).state.calls).flatten
      = (writtenBuffers r.calls).flatten ++
        slice chunk (r.entry.uoffFolderStart - u)
          (r.entry.uoffFolderStart + r.entry.cbFile - u) ∧
    RoutedAt os T (u + chunk.length)
      (routeOpen (FDINotify os T) (FDIWrite os) u chunk r hf made).state := by
  have hmw : WritesOn (outputHandle os T r.entry) made :=
    writesOn_of_writtenBuffers_nil _ _ hmade
  generalize hres : routeOpen (FDINotify os T) (FDIWrite os) u chunk r hf made = res at hok ⊢
  unfold routeOpen at hres
  simp only [] at hres
  split at hres
  · subst hres; simp at hok
  · split at hres
    · next hend =>
      subst hres
      refine ⟨rfl, ?_, fun _ => hend, fun hf1 hh => (by simp at hh), ?_⟩
      · simp only [writtenBuffers_append, hmade, writtenBuffers_closeFileInfo,
          List.append_nil, List.nil_append, List.flatten_append, flatten_written]
      · simp only [writesOn_append]
        exact ⟨hw, ⟨hmw, hhf ▸ writesOn_written _ _ _⟩,
          writesOn_of_writtenBuffers_nil _ _ (writtenBuffers_closeFileInfo _ _ _)⟩
    · subst hres
      refine ⟨rfl, ?_, fun hh => (by simp at hh), fun hf1 hh => ?_, ?_⟩
      · simp only [writtenBuffers_append, hmade, List.nil_append, List.flatten_append,
          flatten_written]
      · simp only [Sink.opened.injEq] at hh
        rw [← hh]
        exact hhf
      · simp only [writesOn_append]
        exact ⟨hw, hmw, hhf ▸ writesOn_written _ _ _⟩

theorem routeFile_spec (os : Win32) (T : List Nat) (u : Nat) (chunk : List Nat) (r : Routed)
    (hok : (routeFile (FDINotify os T) (FDIWrite os) u chunk r).ok = true)
    (hr : RoutedAt os T u r) :
    (routeFile (FDINotify os T) (FDIWrite os) u chunk r).state.entry = r.entry ∧
    (writtenBuffers (routeFile (FDINotify os T) (FDIWrite os) u chunk r).state.calls).flatten
      = (writtenBuffers r.calls).flatten ++
        slice chunk (r.entry.uoffFolderStart - u)
          (r.entry.uoffFolderStart + r.entry.cbFile - u) ∧
    RoutedAt os T (u + chunk.length)
      (routeFile (FDINotify os T) (FDIWrite os) u chunk r).state := by
  obtain ⟨hclosed, hopen, hw⟩ := hr
  generalize hres : routeFile (FDINotify os T) (FDIWrite os) u chunk r = res at hok ⊢
  unfold routeFile at hres
  cases hs : r.sink with
  | closed =>
    have hb := hclosed hs
    simp only [hs] at hres
    subst hres
    refine ⟨rfl, ?_, fun _ => (show r.entry.uoffFolderStart + r.entry.cbFile ≤ u + chunk.length
      by omega), hopen, hw⟩
    rw [slice_eq_nil_of_le _ _ _ (by omega)]; simp
  | notOpened =>
    simp only [hs] at hres
    split at hres
    · split at hres
      · subst hres; simp at hok
      · subst hres
        exact routeOpen_spec os T u chunk r _ _ hok rfl hw (writtenBuffers_copyFile _ _ _)
    · next hnot =>
      subst hres
      refine ⟨rfl, ?_, fun hh => (by rw [hs] at hh; cases hh), hopen, hw⟩
      rw [slice_untouched _ _ _ _ (by simpa using hnot)]; simp
  | opened hf =>
    have hhf : hf = outputHandle os T r.entry := hopen hf hs
    simp only [hs] at hres
    split at hres
    · subst hres
      exact routeOpen_spec os T u chunk r hf [] hok hhf hw rfl
    · next hnot =>
      subst hres
      refine ⟨rfl, ?_, fun hh => (by rw [hs] at hh; cases hh), hopen, hw⟩
      rw [slice_untouched _ _ _ _ (by simpa using hnot)]; simp

theorem finishFile_spec (os : Win32) (T : List Nat) (u : Nat) (r : Routed)
    (hok : (finishFile (FDINotify os T) r).ok = true) (hr : RoutedAt os T u r) :
    (finishFile (FDINotify os T) r).state.entry = r.entry ∧
    (writtenBuffers (finishFile (FDINotify os T) r).state.calls).flatten
      = (writtenBuffers r.calls).flatten ∧
    WritesOn (outputHandle os T r.entry) (finishFile (FDINotify os T) r).state.calls ∧
    (finishFile (FDINotify os T) r).state.sink = .closed := by
  obtain ⟨_, _, hw⟩ := hr
  generalize hres : finishFile (FDINotify os T) r = res at hok ⊢
  unfold finishFile at hres
  cases hs : r.sink with
  | closed => simp only [hs] at hres; subst hres; exact ⟨rfl, rfl, hw, hs⟩
  | opened hf => simp only [hs] at hres; subst hres; simp at hok
  | notOpened =>
    simp only [hs] at hres
    split at hres
    · split at hres
      · subst hres; simp at hok
      · subst hres
        refine ⟨rfl, ?_, ?_, rfl⟩
        · simp only [writtenBuffers_append, writtenBuffers_copyFile,
            writtenBuffers_closeFileInfo, List.append_nil]
        · simp only [writesOn_append]
          exact ⟨hw, writesOn_of_writtenBuffers_nil _ _ (writtenBuffers_copyFile _ _ _),
            writesOn_of_writtenBuffers_nil _ _ (writtenBuffers_closeFileInfo _ _ _)⟩
    · subst hres; simp at hok

theorem routeAll_spec {P : Routed → Prop} {Q : Routed → Routed → Prop}
    (step : Routed → Routing Routed)
    (hstep : ∀ r, (step r).ok = true → P r → Q r (step r).state) :
    ∀ rs : List Routed, (routeAll step rs).ok = true → (∀ r ∈ rs, P r) →
      List.Forall₂ Q rs (routeAll step rs).state := by
  intro rs
  induction rs with
  | nil => intro _ _; exact List.Forall₂.nil
  | cons r rs ih =>
    intro hok hall
    unfold routeAll at hok ⊢
    by_cases h1 : (step r).ok = false
    · simp [h1] at hok
    · simp only [h1, if_false] at hok ⊢
      exact List.Forall₂.cons (hstep r (by simpa using h1) (hall r (by simp)))
        (ih hok (fun x hx => hall x (by simp [hx])))

theorem forall₂_comp {α β γ : Type} {R : α → β → Prop} {S : β → γ → Prop} {Q : α → γ → Prop}
    (hQ : ∀ a b c, R a b → S b c → Q a c) :
    ∀ {l1 : List α} {l2 : List β} {l3 : List γ},
      List.Forall₂ R l1 l2 → List.Forall₂ S l2 l3 → List.Forall₂ Q l1 l3 := by
  intro l1 l2 l3 h12
  induction h12 generalizing l3 with
  | nil => intro h23; cases h23; exact List.Forall₂.nil
  | cons hab _ ih =>
    intro h23
    cases h23 with
    | cons hbc htl => exact List.Forall₂.cons (hQ _ _ _ hab hbc) (ih htl)

theorem forall₂_right {α β : Type} {R : α → β → Prop} {P : β → Prop}
    (hP : ∀ a b, R a b → P b) :
    ∀ {l1 : List α} {l2 : List β}, List.Forall₂ R l1 l2 → ∀ b ∈ l2, P b := by
  intro l1 l2 h
  induction h with
  | nil => intro b hb; simp at hb
  | cons hab _ ih =>
    intro b hb
    simp only [List.mem_cons] at hb
    rcases hb with rfl | hb
    · exact hP _ _ hab
    · exact ih b hb

theorem routeBlocks_spec (os : Win32) (T : List Nat) (chunks : List (List Nat)) :
    ∀ (u : Nat) (rs : List Routed),
      (routeBlocks (FDINotify os T) (FDIWrite os) u chunks rs).ok = true →
      (∀ r ∈ rs, RoutedAt os T u r) →
      List.Forall₂ (fun r r1 => r1.entry = r.entry ∧
        (writtenBuffers r1.calls).flatten = (writtenBuffers r.calls).flatten ++
          slice chunks.flatten (r.entry.uoffFolderStart - u)
            (r.entry.uoffFolderStart + r.entry.cbFile - u) ∧
        WritesOn (outputHandle os T r.entry) r1.calls ∧ r1.sink = .closed) rs
        (routeBlocks (FDINotify os T) (FDIWrite os) u chunks rs).state := by
  induction chunks with
  | nil =>
    intro u rs hok hall
    unfold routeBlocks at hok ⊢
    refine routeAll_spec (P := RoutedAt os T u) _ ?_ rs hok hall
    intro r hr hP
    obtain ⟨h1, h2, h3, h4⟩ := finishFile_spec os T u r hr hP
    exact ⟨h1, by simp [h2, slice_nil], h3, h4⟩
  | cons chunk chunks ih =>
    intro u rs hok hall
    unfold routeBlocks at hok ⊢
    by_cases hc : chunk = []
    · simp [hc] at hok
    · simp only [hc, if_false] at hok ⊢
      by_cases hs : (routeAll (routeFile (FDINotify os T) (FDIWrite os) u chunk) rs).ok = false
      · simp [hs] at hok
      · simp only [hs, if_false] at hok ⊢
        have hs1 : (routeAll (routeFile (FDINotify os T) (FDIWrite os) u chunk) rs).ok = true := by
          simpa using hs
        have step := routeAll_spec (P := RoutedAt os T u)
          (Q := fun r r1 => r1.entry = r.entry ∧
            (writtenBuffers r1.calls).flatten = (writtenBuffers r.calls).flatten ++
              slice chunk (r.entry.uoffFolderStart - u)
                (r.entry.uoffFolderStart + r.entry.cbFile - u) ∧
            RoutedAt os T (u + chunk.length) r1)
          (routeFile (FDINotify os T) (FDIWrite os) u chunk)
          (fun r hr hP => routeFile_spec os T u chunk r hr hP) rs hs1 hall
        have hall2 := forall₂_right
          (P := fun r1 => RoutedAt os T (u + chunk.length) r1) (fun _ _ hab => hab.2.2) step
        have rest := ih (u + chunk.length) _ hok hall2
        refine forall₂_comp ?_ step rest
        rintro a b c ⟨hab1, hab2, _⟩ ⟨hbc1, hbc2, hbc3, hbc4⟩
        refine ⟨hbc1.trans hab1, ?_, hab1 ▸ hbc3, hbc4⟩
        rw [hbc2, hab2, hab1, List.flatten_cons, slice_append, List.append_assoc,
          Nat.sub_sub, Nat.sub_sub]

/-- The copy step as modelled, with the callbacks of the source: when it is
not aborted, every file has a closed sink and was written, on its output
handle, the buffers that concatenate to its slice of the folder stream. -/
theorem FDICopyModel_spec (os : Win32) (T : List Nat) (folders : List Folder)
    (hok : (FDICopyModel (FDINotify os T) (FDIWrite os) folders).ok = true) :
    List.Forall₂ (fun F rs =>
      List.Forall₂ (fun f r => r.entry = f ∧
        (writtenBuffers r.calls).flatten =
          slice F.blocks.flatten f.uoffFolderStart (f.uoffFolderStart + f.cbFile) ∧
        WritesOn (outputHandle os T f) r.calls ∧ r.sink = .closed) F.files rs)
      folders (FDICopyModel (FDINotify os T) (FDIWrite os) folders).state := by
  induction folders with
  | nil => exact List.Forall₂.nil
  | cons F Fs ih =>
    unfold FDICopyModel at hok ⊢
    by_cases hs : (routeBlocks (FDINotify os T) (FDIWrite os) 0 F.blocks
        (F.files.map fun f => { entry := f, sink := .notOpened, calls := [] })).ok = false
    · simp [hs] at hok
    · simp only [hs, if_false] at hok ⊢
      have hs1 : (routeBlocks (FDINotify os T) (FDIWrite os) 0 F.blocks
          (F.files.map fun f => { entry := f, sink := .notOpened, calls := [] })).ok = true := by
        simpa using hs
      have hall : ∀ r ∈ F.files.map
          (fun f => ({ entry := f, sink := .notOpened, calls := [] } : Routed)),
          RoutedAt os T 0 r := by
        intro r hr
        obtain ⟨f, _, rfl⟩ := List.mem_map.1 hr
        exact ⟨fun hh => (by cases hh), fun hf hh => (by cases hh), fun c hc => (by simp at hc)⟩
      have key := routeBlocks_spec os T F.blocks 0 _ hs1 hall
      have hmap : List.Forall₂ (fun (f : CFFILE) (r : Routed) =>
          r = { entry := f, sink := .notOpened, calls := [] }) F.files
          (F.files.map fun f => { entry := f, sink := .notOpened, calls := [] }) := by
        induction F.files with
        | nil => exact List.Forall₂.nil
        | cons f fs ihf => exact List.Forall₂.cons rfl ihf
      refine List.Forall₂.cons (forall₂_comp ?_ hmap key) (ih hok)
      rintro f r r1 rfl ⟨h1, h2, h3, h4⟩
      refine ⟨h1, ?_, h3, h4⟩
      simpa [writtenBuffers] using h2

/-! ## The calls of a file within the calls of the copy -/

theorem routeOpen_calls (notify : PFNFDINOTIFY) (write : PFNWRITE) (u : Nat)
    (chunk : List Nat) (r : Routed) (hf : Int) (made : List Call) :
    (routeOpen notify write u chunk r hf made).state.calls =
      r.calls ++ (routeOpen notify write u chunk r hf made).made := by
  unfold routeOpen
  simp only []
  split_ifs <;> rfl

theorem routeFile_calls (notify : PFNFDINOTIFY) (write : PFNWRITE) (u : Nat)
    (chunk : List Nat) (r : Routed) :
    (routeFile notify write u chunk r).state.calls =
      r.calls ++ (routeFile notify write u chunk r).made := by
  unfold routeFile
  cases r.sink <;> simp only [] <;> (try split_ifs) <;>
    first | exact routeOpen_calls _ _ _ _ _ _ _ | simp

theorem finishFile_calls (notify : PFNFDINOTIFY) (r : Routed) :
    (finishFile notify r).state.calls = r.calls ++ (finishFile notify r).made := by
  unfold finishFile
  cases r.sink <;> simp only [] <;> (try split_ifs) <;> simp

theorem extends_refl (rs : List Routed) (made : List Call) :
    List.Forall₂ (Extends made) rs rs :=
  List.forall₂_same.2 fun r _ => ⟨[], by simp, List.nil_sublist _⟩

theorem routeAll_calls (step : Routed → Routing Routed)
    (hstep : ∀ r, (step r).state.calls = r.calls ++ (step r).made) :
    ∀ rs : List Routed,
      List.Forall₂ (Extends (routeAll step rs).made) rs (routeAll step rs).state := by
  intro rs
  induction rs with
  | nil => exact List.Forall₂.nil
  | cons r rs ih =>
    unfold routeAll
    by_cases h1 : (step r).ok = false
    · simp only [h1, if_true]
      exact List.Forall₂.cons ⟨_, hstep r, List.Sublist.refl _⟩ (extends_refl rs _)
    · simp only [h1, if_false]
      refine List.Forall₂.cons ⟨_, hstep r, List.sublist_append_left _ _⟩ (ih.imp ?_)
      rintro a b ⟨m, hm, hsub⟩
      exact ⟨m, hm, hsub.trans (List.sublist_append_right _ _)⟩

theorem routeBlocks_calls (notify : PFNFDINOTIFY) (write : PFNWRITE)
    (chunks : List (List Nat)) :
    ∀ (u : Nat) (rs : List Routed),
      List.Forall₂ (Extends (routeBlocks notify write u chunks rs).made) rs
        (routeBlocks notify write u chunks rs).state := by
  induction chunks with
  | nil =>
    intro u rs
    unfold routeBlocks
    exact routeAll_calls _ (finishFile_calls notify) rs
  | cons chunk chunks ih =>
    intro u rs
    unfold routeBlocks
    by_cases hc : chunk = []
    · simp only [hc, if_true]
      exact extends_refl rs _
    · simp only [hc, if_false]
      have step := routeAll_calls _ (routeFile_calls notify write u chunk) rs
      by_cases hs : (routeAll (routeFile notify write u chunk) rs).ok = false
      · simp only [hs, if_true]
        exact step
      · simp only [hs, if_false]
        refine forall₂_comp ?_ step (ih (u + chunk.length) _)
        rintro a b c ⟨m1, h1, s1⟩ ⟨m2, h2, s2⟩
        exact ⟨m1 ++ m2, by rw [h2, h1, List.append_assoc], s1.append s2⟩

/-- The calls recorded for a file of the copy step as modelled are calls of
the copy, in the order of the copy. -/
theorem FDICopyModel_calls (notify : PFNFDINOTIFY) (write : PFNWRITE) (folders : List Folder) :
    ∀ rs ∈ (FDICopyModel notify write folders).state, ∀ r ∈ rs,
      r.calls.Sublist (FDICopyModel notify write folders).made := by
  induction folders with
  | nil => intro rs hrs; simp [FDICopyModel] at hrs
  | cons F Fs ih =>
    have key := routeBlocks_calls notify write F.blocks 0
      (F.files.map fun f => { entry := f, sink := .notOpened, calls := [] })
    have hfirst : ∀ r ∈ (routeBlocks notify write 0 F.blocks
        (F.files.map fun f => { entry := f, sink := .notOpened, calls := [] })).state,
        r.calls.Sublist (routeBlocks notify write 0 F.blocks
          (F.files.map fun f => { entry := f, sink := .notOpened, calls := [] })).made := by
      have hmap : List.Forall₂ (fun (f : CFFILE) (r : Routed) => r.calls = []) F.files
          (F.files.map fun f => { entry := f, sink := .notOpened, calls := [] }) := by
        induction F.files with
        | nil => exact List.Forall₂.nil
        | cons f fs ihf => exact List.Forall₂.cons rfl ihf
      refine forall₂_right ?_ (forall₂_comp (Q := fun (_ : CFFILE) (r : Routed) =>
        r.calls.Sublist (routeBlocks notify write 0 F.blocks
          (F.files.map fun f => { entry := f, sink := .notOpened, calls := [] })).made)
        ?_ hmap key)
      · intro a b hab; exact hab
      · rintro a b c hb ⟨m, hm, hsub⟩
        rw [hm, hb, List.nil_append]
        exact hsub
    unfold FDICopyModel
    by_cases hs : (routeBlocks notify write 0 F.blocks
        (F.files.map fun f => { entry := f, sink := .notOpened, calls := [] })).ok = false
    · simp only [hs, if_true]
      intro rs hrs r hr
      simp only [List.mem_singleton] at hrs
      subst hrs
      exact hfirst r hr
    · simp only [hs, if_false]
      intro rs hrs r hr
      rcases List.mem_cons.1 hrs with rfl | hrs
      · exact (hfirst r hr).trans (List.sublist_append_left _ _)
      · exact (ih rs hrs r hr).trans (List.sublist_append_right _ _)

/-- C4: let the copy step of the cabinet library be the one modelled from the
specification, on the folders of a cabinet, and let `extract` accept the
cabinet (it returns true). Then `extract` called `FDICopy`, the copy was not
aborted and the calls it logged are those of the modelled copy with the
callbacks `FDINotify` and `FDIWrite` of the source; for every file of every
folder, the buffers handed to `WriteFile` for that file, concatenated in call
order, are the slice `[uoffFolderStart, uoffFolderStart + cbFile)` of the
decoded stream of its folder; all of them were written on the handle the
`fdintCOPY_FILE` notification returned for the file; the file was closed; and
the calls of the file are calls of the logged copy, in its order. -/
theorem extract_writes_slices (os : Win32) (fdi : Cabinet)
    (file_name file_dir out_path : List Nat) (folders : List Folder)
    (hlib : ∀ cab path notify write,
      fdi.FDICopy cab path notify write = (FDICopyModel notify write folders).answer)
    (haccept : (extract os fdi file_name file_dir out_path).result = .returned true) :
    ∃ T cab path, build_TargetDirectoryName out_path = .ok T ∧
      (FDICopyModel (FDINotify os T.mem) (FDIWrite os) folders).ok = true ∧
      Step.FDICopy cab path (FDICopyModel (FDINotify os T.mem) (FDIWrite os) folders).made true ∈
        (extract os fdi file_name file_dir out_path).steps ∧
      List.Forall₂ (fun F rs =>
        List.Forall₂ (fun f r => r.entry = f ∧
          (writtenBuffers r.calls).flatten =
            slice F.blocks.flatten f.uoffFolderStart (f.uoffFolderStart + f.cbFile) ∧
          WritesOn (outputHandle os T.mem f) r.calls ∧ r.sink = .closed) F.files rs)
        folders (FDICopyModel (FDINotify os T.mem) (FDIWrite os) folders).state ∧
      (∀ rs ∈ (FDICopyModel (FDINotify os T.mem) (FDIWrite os) folders).state, ∀ r ∈ rs,
        r.calls.Sublist (FDICopyModel (FDINotify os T.mem) (FDIWrite os) folders).made) := by
  have hstep : ∃ cab path callbacks,
      Step.FDICopy cab path callbacks true ∈
        (extract os fdi file_name file_dir out_path).steps := by
    rcases extract_cases os fdi file_name file_dir out_path with
      ⟨f, h⟩ | h | ⟨f, h⟩ | h | ⟨f, h⟩ | ⟨name, h⟩ | ⟨name, hf, h8, h⟩ |
      ⟨name, hf, info, h8, h10, h⟩ | ⟨name, hf, info, cab, path, cbs, h8, h10, h⟩ |
      ⟨name, hf, info, cab, path, cbs, h8, h10, h⟩
    all_goals rw [h] at haccept
    all_goals first
      | (simp at haccept; done)
      | (exact ⟨cab, path, cbs, by rw [h]; simp⟩)
  obtain ⟨cab, path, callbacks, hmem⟩ := hstep
  obtain ⟨T, hT, hanswer⟩ := extract_steps_answered os fdi file_name file_dir out_path _ hmem
  rw [hlib] at hanswer
  simp only [Routing.answer, Prod.mk.injEq] at hanswer
  obtain ⟨hok, hmade⟩ := hanswer
  refine ⟨T, cab, path, hT, hok.symm, hmade ▸ hmem,
    FDICopyModel_spec os T.mem folders hok.symm, FDICopyModel_calls _ _ folders⟩

/-- C4, on a cabinet of one folder with four files in three blocks, two of
them empty: the run accepts the cabinet, so every file was written its slice. -/
theorem extract_writes_slices_witness :
    (extract demoOS foldersFDI [120, 46, 99] [100] [111]).result = .returned true ∧
    ∃ T cab path, build_TargetDirectoryName [111] = .ok T ∧
      (FDICopyModel (FDINotify demoOS T.mem) (FDIWrite demoOS) demoFolders).ok = true ∧
      Step.FDICopy cab path
          (FDICopyModel (FDINotify demoOS T.mem) (FDIWrite demoOS) demoFolders).made true ∈
        (extract demoOS foldersFDI [120, 46, 99] [100] [111]).steps ∧
      List.Forall₂ (fun F rs =>
        List.Forall₂ (fun f r => r.entry = f ∧
          (writtenBuffers r.calls).flatten =
            slice F.blocks.flatten f.uoffFolderStart (f.uoffFolderStart + f.cbFile) ∧
          WritesOn (outputHandle demoOS T.mem f) r.calls ∧ r.sink = .closed) F.files rs)
        demoFolders (FDICopyModel (FDINotify demoOS T.mem) (FDIWrite demoOS) demoFolders).state ∧
      (∀ rs ∈ (FDICopyModel (FDINotify demoOS T.mem) (FDIWrite demoOS) demoFolders).state,
        ∀ r ∈ rs, r.calls.Sublist
          (FDICopyModel (FDINotify demoOS T.mem) (FDIWrite demoOS) demoFolders).made) :=
  ⟨rfl, extract_writes_slices demoOS foldersFDI [120, 46, 99] [100] [111] demoFolders
    (fun _ _ _ _ => rfl) rfl⟩

/-! ## Continuation files -/

theorem FDICopyTables_aborts (os : Win32) (T : List Nat)
    (resume : Routing (List (List Routed))) (t : Tables)
    (hcont : ∃ f ∈ t.files, isContinuation f.iFolder = true) :
    FDICopyTables (FDINotify os T) (FDIWrite os) resume t = ⟨[], [], false⟩ := by
  unfold FDICopyTables
  cases hfind : t.files.find? (fun f => isContinuation f.iFolder) with
  | none =>
    obtain ⟨f, hf, hc⟩ := hcont
    have := List.find?_eq_none.1 hfind f hf
    simp [hc] at this
  | some f =>
    simp only []
    unfold continuationNotice
    split_ifs <;> simp_all [FDINotify]

/-- C7: on `fdintPARTIAL_FILE` and on `fdintNEXT_CABINET` the handler returns
-1 and makes no call, so it creates no file and no directory. With the copy
step of the cabinet library as modelled from the specification, on tables in
which some file has a continuation sentinel as `iFolder`, the copy with the
callbacks of the source is therefore aborted before any folder is copied: no
sink exists and no call was made, whatever the library would do after another
answer. And `extract` on such a library does not return true: if it reaches
`FDICopy`, that call fails without any call of a callback, and `extract`
returns false. -/
theorem continuation_notifications_abort (os : Win32) (TargetDirectoryName : List Nat)
    (pfdin : FDINOTIFICATION) :
    FDINotify os TargetDirectoryName .fdintPARTIAL_FILE pfdin = (-1, []) ∧
    FDINotify os TargetDirectoryName .fdintNEXT_CABINET pfdin = (-1, []) ∧
    (∀ (t : Tables) (resume : Routing (List (List Routed))),
      (∃ f ∈ t.files, isContinuation f.iFolder = true) →
      FDICopyTables (FDINotify os TargetDirectoryName) (FDIWrite os) resume t =
        ⟨[], [], false⟩) ∧
    (∀ (fdi : Cabinet) (file_name file_dir out_path : List Nat) (t : Tables)
      (resume : PFNFDINOTIFY → PFNWRITE → Routing (List (List Routed))),
      (∃ f ∈ t.files, isContinuation f.iFolder = true) →
      (∀ cab path notify write, fdi.FDICopy cab path notify write =
        (FDICopyTables notify write (resume notify write) t).answer) →
      (extract os fdi file_name file_dir out_path).result ≠ .returned true ∧
      ∀ cab path callbacks ok,
        Step.FDICopy cab path callbacks ok ∈
          (extract os fdi file_name file_dir out_path).steps →
        ok = false ∧ callbacks = [] ∧
          (extract os fdi file_name file_dir out_path).result = .returned false) := by
  refine ⟨rfl, rfl, fun t resume hcont => FDICopyTables_aborts os _ resume t hcont, ?_⟩
  intro fdi file_name file_dir out_path t resume hcont hlib
  have key : ∀ cab path callbacks ok,
      Step.FDICopy cab path callbacks ok ∈
        (extract os fdi file_name file_dir out_path).steps →
      ok = false ∧ callbacks = [] ∧
        (extract os fdi file_name file_dir out_path).result = .returned false := by
    intro cab path callbacks ok hmem
    obtain ⟨T, hT, hanswer⟩ :=
      extract_steps_answered os fdi file_name file_dir out_path _ hmem
    rw [hlib, FDICopyTables_aborts os T.mem _ t hcont] at hanswer
    simp only [Routing.answer, Prod.mk.injEq] at hanswer
    obtain ⟨rfl, rfl⟩ := hanswer
    refine ⟨rfl, rfl, ?_⟩
    rcases extract_cases os fdi file_name file_dir out_path with
      ⟨f, h⟩ | h | ⟨f, h⟩ | h | ⟨f, h⟩ | ⟨name, h⟩ | ⟨name, hf, h8, h⟩ |
      ⟨name, hf, info, h8, h10, h⟩ | ⟨name, hf, info, cab1, path1, cbs, h8, h10, h⟩ |
      ⟨name, hf, info, cab1, path1, cbs, h8, h10, h⟩
    all_goals rw [h] at hmem ⊢
    all_goals first
      | rfl
      | (simp at hmem)
  refine ⟨?_, key⟩
  intro htrue
  rcases extract_cases os fdi file_name file_dir out_path with
    ⟨f, h⟩ | h | ⟨f, h⟩ | h | ⟨f, h⟩ | ⟨name, h⟩ | ⟨name, hf, h8, h⟩ |
    ⟨name, hf, info, h8, h10, h⟩ | ⟨name, hf, info, cab1, path1, cbs, h8, h10, h⟩ |
    ⟨name, hf, info, cab1, path1, cbs, h8, h10, h⟩
  all_goals first
    | (rw [h] at htrue; simp at htrue; done)
    | (have hk := (key cab1 path1 cbs true (by rw [h]; simp)).1; simp at hk)

/-- C7, on a cabinet whose second file continues into the next cabinet, with a
library that would leave that file out if the callback let it go on: `extract`
does not return true. -/
theorem continuation_notifications_abort_witness :
    (∃ f ∈ continuedTables.files, isContinuation f.iFolder = true) ∧
    (extract demoOS continuedFDI [120, 46, 99] [100] [111]).result ≠ .returned true :=
  ⟨⟨CFFILE.mk 4 3 0xFFFE 1 2 0 [98, 0], by decide, by decide⟩,
    ((continuation_notifications_abort demoOS [] ⟨[], 0, 0, 0, 0⟩).2.2.2
      continuedFDI [120, 46, 99] [100] [111] continuedTables
      (fun notify write => FDICopyModel notify write (groupByFolder continuedTables))
      ⟨CFFILE.mk 4 3 0xFFFE 1 2 0 [98, 0], by decide, by decide⟩
      (fun _ _ _ _ => rfl)).1⟩

end PsfExtractor
